import Mathlib

/-!
# Heat-diffusion stepping (hpce::fs1910): a shallow embedding

Sources embedded here:

* `src/fs1910/step_world_v3_opencl.cpp`: `kernel_xy` and `StepWorldV3OpenCL`
  (the read-back-every-step orchestrator);
* `src/fs1910/step_world_v5_packed_properties.cpp`: the PACKING loop and
  `StepWorldV5PackedProperties` (the resident ping-pong orchestrator).

Conventions.

* `float` is an abstract carrier `F` with the operations the code uses
  (`+`, `-`, `*`, `/`, `<`, the literals `0`, `1`, `4`).  Statements that do
  not depend on arithmetic laws are proved for every such `F`; numerical
  statements are proved over an arbitrary linearly ordered field (exact
  arithmetic) and evaluated over `ℚ`.
* `unsigned` and `uint32_t` values are natural numbers, and an index
  computation is reduced modulo `2 ^ 32 = 4294967296` exactly where the C++
  expression is evaluated in 32-bit unsigned arithmetic.  The `int` loop
  counters of the PACKING loop are compared with and multiplied by `unsigned`
  values, so they are natural numbers as well.
* Arrays (`std::vector`, device buffers) are lists.  Every read and write is
  bounds-checked: an out-of-bounds access, which is undefined behaviour in
  the source, makes the embedded function return `none`.
* The OpenCL calls are embedded by their effect on the data.  A device buffer
  of `cbBuffer` bytes holds `cbBuffer / 4` four-byte cells.  The contents of a
  freshly created device buffer are unspecified; they are a parameter `junk`
  of the orchestrators.
* The platform, device and program set-up at the head of both orchestrators
  has no effect on the world and is left out.
-/

namespace hpce
namespace fs1910

/-! ## Data model -/

/-- Modelled from the spec: `heat.hpp` is not part of the sources, so the two
property bits `Cell_Fixed` and `Cell_Insulator` of its flag enumeration are
taken as parameters.  The spec (section 3) only says that they are bits of the
`uint32` property word. -/
structure cell_flags_t where
  Cell_Fixed : Nat
  Cell_Insulator : Nat

/-- Modelled from the spec: the flag values used for concrete evaluations,
the two lowest bits, which leaves the bits 4, 8, 16 and 32 written by the
PACKING loop free. -/
def heatFlags : cell_flags_t := ⟨1, 2⟩

/-- Modelled from the spec: the record `world_t` of `heat.hpp` (spec section 3):
dimensions `w`, `h`, diffusion coefficient `alpha`, time `t`, and the two flat
row-major arrays `state` and `properties`. -/
structure world_t (F : Type) where
  w : Nat
  h : Nat
  alpha : F
  t : F
  state : List F
  properties : List Nat

/-! ## Memory and 32-bit index arithmetic -/

/-- Bounds-checked write `a[i] = v`. -/
def storeAt {α : Type} (a : List α) (i : Nat) (v : α) : Option (List α) :=
  if i < a.length then some (a.set i v) else none

/-- The C++ expression `y * w + x` evaluated in `unsigned` arithmetic. -/
def cellIndex (x y w : Nat) : Nat := (y * w + x) % 4294967296

/-- The C++ expression `index - w` evaluated in `unsigned` arithmetic. -/
def indexAbove (index w : Nat) : Nat := (index + 4294967296 - w % 4294967296) % 4294967296

/-- The C++ expression `index + w` evaluated in `unsigned` arithmetic. -/
def indexBelow (index w : Nat) : Nat := (index + w) % 4294967296

/-- The C++ expression `index - 1` evaluated in `unsigned` arithmetic. -/
def indexLeft (index : Nat) : Nat := (index + 4294967296 - 1) % 4294967296

/-- The C++ expression `index + 1` evaluated in `unsigned` arithmetic. -/
def indexRight (index : Nat) : Nat := (index + 1) % 4294967296

/-- A counted loop `for (i = 0; i < n; ++i) body(i)` over a state, stopping at
the first failing iteration. -/
def forRange {σ : Type} : Nat → (Nat → σ → Option σ) → σ → Option σ
  | 0, _, s => some s
  | n + 1, body, s => (forRange n body s).bind (body n)

/-- The test `(word & Cell_Fixed) || (word & Cell_Insulator)`. -/
def isFixedOrInsulator (fl : cell_flags_t) (word : Nat) : Prop :=
  word &&& fl.Cell_Fixed ≠ 0 ∨ word &&& fl.Cell_Insulator ≠ 0

instance (fl : cell_flags_t) (word : Nat) : Decidable (isFixedOrInsulator fl word) := by
  unfold isFixedOrInsulator; infer_instance

/-- The test `!(word & Cell_Insulator)`. -/
def lacksInsulator (fl : cell_flags_t) (word : Nat) : Prop :=
  word &&& fl.Cell_Insulator = 0

instance (fl : cell_flags_t) (word : Nat) : Decidable (lacksInsulator fl word) := by
  unfold lacksInsulator; infer_instance

/-! ## Transfers and dispatch -/

/-- The byte count `size_t cbBuffer = 4 * world.w * world.h`, whose right-hand
side is evaluated in `unsigned` arithmetic. -/
def cbBuffer (w h : Nat) : Nat := (4 * w * h) % 4294967296

/-- The call `enqueueWriteBuffer(dev, _, 0, cb, &host[0])`: the resulting
contents of a device buffer of `cb` bytes. -/
def enqueueWriteBuffer {α : Type} (cb : Nat) (host : List α) : Option (List α) :=
  if cb ≤ 4 * host.length then some (host.take (cb / 4)) else none

/-- The call `enqueueReadBuffer(dev, CL_TRUE, 0, cb, &host[0])`: the resulting
contents of the host vector. -/
def enqueueReadBuffer {α : Type} (cb : Nat) (dev host : List α) : Option (List α) :=
  if cb ≤ 4 * host.length ∧ cb ≤ 4 * dev.length then
    some (dev.take (cb / 4) ++ host.drop (cb / 4))
  else none

/-- The call `enqueueNDRangeKernel` over `globalSize (w, h)` from offset
`(0, 0)`: the kernel runs once for every `x < w`, `y < h`, each work-item
writing into the destination buffer. -/
def enqueueNDRangeKernel {α : Type} (w h : Nat) (kernel : Nat → Nat → List α → Option (List α))
    (buffBuffer : List α) : Option (List α) :=
  forRange h (fun y b => forRange w (fun x b => kernel x y b) b) buffBuffer

section Kernel

variable {F : Type} [Add F] [Sub F] [Mul F] [Div F] [Zero F] [One F] [OfNat F 4]
  [LT F] [DecidableRel (fun a b : F => a < b)]

/-! ## The stencil kernel -/

/-- The function `std::max(a, b)`, which is `(a < b) ? b : a`. -/
def stdMax (a b : F) : F := if a < b then b else a

/-- The function `std::min(a, b)`, which is `(b < a) ? b : a`. -/
def stdMin (a b : F) : F := if b < a then b else a

/-- One of the four neighbour blocks of `kernel_xy`:
`if (!(world_properties[j] & Cell_Insulator)) { contrib += outer; acc += outer * world_state[j]; }`
acting on the pair `(contrib, acc)`. -/
def contribute (fl : cell_flags_t) (outer : F) (world_state : List F)
    (world_properties : List Nat) (j : Nat) (ca : F × F) : Option (F × F) :=
  match world_properties[j]? with
  | none => none
  | some pj =>
    if lacksInsulator fl pj then
      match world_state[j]? with
      | none => none
      | some sj => some (ca.1 + outer, ca.2 + outer * sj)
    else some ca

/-- The `else` branch of `kernel_xy` up to `float res = acc / contrib`: the
pair `(contrib, acc)`, started at `(inner, inner * world_state[index])` and
passed through the blocks for the cells above, below, left and right. -/
def accumulate (fl : cell_flags_t) (w : Nat) (inner outer : F) (world_state : List F)
    (world_properties : List Nat) (index : Nat) : Option (F × F) :=
  match world_state[index]? with
  | none => none
  | some s =>
    (((contribute fl outer world_state world_properties (indexAbove index w)
        (inner, inner * s)).bind
      (contribute fl outer world_state world_properties (indexBelow index w))).bind
      (contribute fl outer world_state world_properties (indexLeft index))).bind
      (contribute fl outer world_state world_properties (indexRight index))

/-- The function `kernel_xy` of `step_world_v3_opencl.cpp`; the result is the
array `buffer` after the call. -/
def kernel_xy (fl : cell_flags_t) (x y w : Nat) (inner outer : F) (world_state : List F)
    (world_properties : List Nat) (buffer : List F) : Option (List F) :=
  let index := cellIndex x y w
  match world_properties[index]? with
  | none => none
  | some p =>
    if isFixedOrInsulator fl p then
      match world_state[index]? with
      | none => none
      | some s => storeAt buffer index s
    else
      match accumulate fl w inner outer world_state world_properties index with
      | none => none
      | some ca =>
        let res := ca.2 / ca.1
        let res := stdMin 1 (stdMax 0 res)
        storeAt buffer index res

/-- The weight `float outer = world.alpha * dt`. -/
def stepOuter (alpha dt : F) : F := alpha * dt

/-- The weight `float inner = 1 - outer / 4`. -/
def stepInner (alpha dt : F) : F := 1 - stepOuter alpha dt / 4

/-! ## The read-back-every-step orchestrator -/

/-- The variables that the step loop of `StepWorldV3OpenCL` updates: the
world, the host vector `buffer`, and the device buffer `buffBuffer`. -/
structure V3Loop (F : Type) where
  world : world_t F
  buffer : List F
  buffBuffer : List F

/-- One iteration of the loop `for (unsigned t = 0; t < n; t++)` of
`StepWorldV3OpenCL`: upload `world.state` into `buffState`, dispatch the
kernel, read `buffBuffer` back into `buffer`, swap `world.state` with `buffer`
and advance `world.t`.  The device kernel named `kernel_xy` that the dispatch
runs is the function `kernel_xy` of the same file. -/
def stepV3 (fl : cell_flags_t) (w h cb : Nat) (inner outer dt : F) (buffProperties : List Nat)
    (s : V3Loop F) : Option (V3Loop F) :=
  match enqueueWriteBuffer cb s.world.state with
  | none => none
  | some buffState =>
    match enqueueNDRangeKernel w h
        (fun x y b => kernel_xy fl x y w inner outer buffState buffProperties b)
        s.buffBuffer with
    | none => none
    | some out =>
      match enqueueReadBuffer cb out s.buffer with
      | none => none
      | some buffer =>
        some { world := { s.world with state := buffer, t := s.world.t + dt },
               buffer := s.world.state,
               buffBuffer := out }

/-- The function `StepWorldV3OpenCL(world, dt, n)`, from the creation of the
buffers on; the result is the world after the call. -/
def StepWorldV3OpenCL (fl : cell_flags_t) (junk : Nat → F) (world : world_t F) (dt : F)
    (n : Nat) : Option (world_t F) :=
  let cb := cbBuffer world.w world.h
  let w := world.w
  let h := world.h
  let outer := stepOuter world.alpha dt
  let inner := stepInner world.alpha dt
  match enqueueWriteBuffer cb world.properties with
  | none => none
  | some buffProperties =>
    let buffer : List F := List.replicate ((w * h) % 4294967296) 0
    let buffBuffer : List F := (List.range (cb / 4)).map junk
    (forRange n (fun _ s => stepV3 fl w h cb inner outer dt buffProperties s)
      { world := world, buffer := buffer, buffBuffer := buffBuffer }).map
      (fun s => s.world)

end Kernel

/-! ## The packed-properties orchestrator -/

/-- One of the four neighbour blocks of the PACKING loop:
`if (!(world.properties[j] & Cell_Insulator)) packed[index] = packed[index] ^ bit;`. -/
def packNeighbour (fl : cell_flags_t) (properties : List Nat) (index j bit : Nat)
    (packed : List Nat) : Option (List Nat) :=
  match properties[j]? with
  | none => none
  | some pj =>
    if lacksInsulator fl pj then
      match packed[index]? with
      | none => none
      | some q => storeAt packed index (q ^^^ bit)
    else some packed

/-- The body of the PACKING loop of `StepWorldV5PackedProperties` for one
`(x, y)`. -/
def packCell (fl : cell_flags_t) (x y w : Nat) (properties : List Nat)
    (packed : List Nat) : Option (List Nat) :=
  let index := cellIndex x y w
  match properties[index]? with
  | none => none
  | some p =>
    match storeAt packed index p with
    | none => none
    | some packed =>
      match packed[index]? with
      | none => none
      | some q =>
        if ¬ (q &&& fl.Cell_Fixed ≠ 0) ∧ ¬ (q &&& fl.Cell_Insulator ≠ 0) then
          (((packNeighbour fl properties index (indexAbove index w) 4 packed).bind
            (packNeighbour fl properties index (indexBelow index w) 8)).bind
            (packNeighbour fl properties index (indexLeft index) 16)).bind
            (packNeighbour fl properties index (indexRight index) 32)
        else some packed

/-- The PACKING loop of `StepWorldV5PackedProperties`, starting from
`std::vector<uint32_t> packed(w * h, 0)`. -/
def PACKING (fl : cell_flags_t) (w h : Nat) (properties : List Nat) : Option (List Nat) :=
  forRange h (fun y pk => forRange w (fun x pk => packCell fl x y w properties pk) pk)
    (List.replicate ((w * h) % 4294967296) 0)

section Packed

variable {F : Type} [Add F] [Sub F] [Mul F] [Div F] [Zero F] [One F] [OfNat F 4]
  [LT F] [DecidableRel (fun a b : F => a < b)]

/-- Modelled from the spec: the device kernel `kernel_xy` of
`step_world_v5_kernel.cl`, which is not part of the sources.  One neighbour
block of spec section 4.3 in the packed variant: the neighbour at `j`
contributes iff the precomputed bit `bit` of the cell's own packed word is set. -/
def contributePacked (outer : F) (world_state : List F) (word bit j : Nat)
    (ca : F × F) : Option (F × F) :=
  if word &&& bit ≠ 0 then
    match world_state[j]? with
    | none => none
    | some sj => some (ca.1 + outer, ca.2 + outer * sj)
  else some ca

/-- Modelled from the spec: the device kernel `kernel_xy` of
`step_world_v5_kernel.cl`, which is not part of the sources.  The pair
`(contrib, acc)` of spec section 4.3, step 2, in the packed variant: bits 4, 8,
16 and 32 of the cell's packed word `word` stand for the neighbours above,
below, left and right (the bits the PACKING loop writes). -/
def accumulatePacked (w : Nat) (inner outer : F) (world_state : List F) (word index : Nat) :
    Option (F × F) :=
  match world_state[index]? with
  | none => none
  | some s =>
    (((contributePacked outer world_state word 4 (indexAbove index w)
        (inner, inner * s)).bind
      (contributePacked outer world_state word 8 (indexBelow index w))).bind
      (contributePacked outer world_state word 16 (indexLeft index))).bind
      (contributePacked outer world_state word 32 (indexRight index))

/-- Modelled from the spec: the device kernel `kernel_xy` of
`step_world_v5_kernel.cl`, which is not part of the sources.  It follows the
four steps of spec section 4.3, reading the packed property words. -/
def kernel_xy_packed (fl : cell_flags_t) (x y w : Nat) (inner outer : F) (world_state : List F)
    (world_properties : List Nat) (buffer : List F) : Option (List F) :=
  let index := cellIndex x y w
  match world_properties[index]? with
  | none => none
  | some p =>
    if isFixedOrInsulator fl p then
      match world_state[index]? with
      | none => none
      | some s => storeAt buffer index s
    else
      match accumulatePacked w inner outer world_state p index with
      | none => none
      | some ca =>
        let res := ca.2 / ca.1
        let res := stdMin 1 (stdMax 0 res)
        storeAt buffer index res

/-- The variables that the step loop of `StepWorldV5PackedProperties`
updates: `world.t` and the two device buffers. -/
structure V5Loop (F : Type) where
  t : F
  buffState : List F
  buffBuffer : List F

/-- One iteration of the loop `for (unsigned t = 0; t < n; t++)` of
`StepWorldV5PackedProperties`: dispatch the kernel from `buffState` into
`buffBuffer`, swap the two buffers and advance `world.t`. -/
def stepV5 (fl : cell_flags_t) (w h : Nat) (inner outer dt : F) (buffProperties : List Nat)
    (s : V5Loop F) : Option (V5Loop F) :=
  match enqueueNDRangeKernel w h
      (fun x y b => kernel_xy_packed fl x y w inner outer s.buffState buffProperties b)
      s.buffBuffer with
  | none => none
  | some out =>
    some { t := s.t + dt, buffState := out, buffBuffer := s.buffState }

/-- The function `StepWorldV5PackedProperties(world, dt, n)`, from the creation
of the buffers on; the result is the world after the call. -/
def StepWorldV5PackedProperties (fl : cell_flags_t) (junk : Nat → F) (world : world_t F)
    (dt : F) (n : Nat) : Option (world_t F) :=
  let cb := cbBuffer world.w world.h
  let w := world.w
  let h := world.h
  match PACKING fl w h world.properties with
  | none => none
  | some packed =>
    let outer := stepOuter world.alpha dt
    let inner := stepInner world.alpha dt
    match enqueueWriteBuffer cb packed with
    | none => none
    | some buffProperties =>
      match enqueueWriteBuffer cb world.state with
      | none => none
      | some buffState =>
        let buffBuffer : List F := (List.range (cb / 4)).map junk
        match forRange n (fun _ s => stepV5 fl w h inner outer dt buffProperties s)
            { t := world.t, buffState := buffState, buffBuffer := buffBuffer } with
        | none => none
        | some s =>
          match enqueueReadBuffer cb s.buffState world.state with
          | none => none
          | some state => some { world with state := state, t := s.t }

end Packed

/-! ## Input validity (spec section 3) -/

/-- The cell with flat index `i` exists in `properties` and has `Cell_Fixed` or
`Cell_Insulator` set. -/
def isMarkedAt (fl : cell_flags_t) (properties : List Nat) (i : Nat) : Prop :=
  ∃ p, properties[i]? = some p ∧ isFixedOrInsulator fl p

instance (fl : cell_flags_t) (properties : List Nat) (i : Nat) :
    Decidable (isMarkedAt fl properties i) :=
  match h : properties[i]? with
  | none => isFalse (by rintro ⟨p, hp, _⟩; rw [h] at hp; cases hp)
  | some p =>
    if hm : isFixedOrInsulator fl p then isTrue ⟨p, h, hm⟩
    else isFalse (by
      rintro ⟨q, hq, hm2⟩
      rw [h] at hq
      cases hq
      exact hm hm2)

/-- The boundary precondition: every cell of row 0, row `h - 1`, column 0 and
column `w - 1` is Fixed or Insulator. -/
def boundaryMarked (fl : cell_flags_t) (w h : Nat) (properties : List Nat) : Prop :=
  ∀ x, x < w → ∀ y, y < h →
    (x = 0 ∨ x + 1 = w ∨ y = 0 ∨ y + 1 = h) → isMarkedAt fl properties (y * w + x)

instance (fl : cell_flags_t) (w h : Nat) (properties : List Nat) :
    Decidable (boundaryMarked fl w h properties) := by
  unfold boundaryMarked; infer_instance

/-- A valid input grid: both arrays have `w * h` entries and the boundary
cells are Fixed or Insulator. -/
def wellFormed {F : Type} (fl : cell_flags_t) (world : world_t F) : Prop :=
  world.state.length = world.w * world.h ∧
  world.properties.length = world.w * world.h ∧
  boundaryMarked fl world.w world.h world.properties

instance {F : Type} (fl : cell_flags_t) (world : world_t F) : Decidable (wellFormed fl world) := by
  unfold wellFormed; infer_instance

/-! ## Auxiliary definitions of the proofs

Each kernel and the PACKING body write one cell; the functions below name the
value written, and are shown equal to what the embedded code stores
(`kernel_xy_eq`, `kernel_xy_packed_eq`, `packCell_eq`). -/

section Auxiliary

variable {F : Type} [Add F] [Mul F] [Div F] [Zero F] [One F]
  [LT F] [DecidableRel (fun a b : F => a < b)]

/-- The value that `kernel_xy` stores into `buffer[index]`. -/
def cellValue (fl : cell_flags_t) (w : Nat) (inner outer : F) (world_state : List F)
    (world_properties : List Nat) (index : Nat) : Option F :=
  match world_properties[index]? with
  | none => none
  | some p =>
    if isFixedOrInsulator fl p then world_state[index]?
    else
      (accumulate fl w inner outer world_state world_properties index).map
        (fun ca => stdMin 1 (stdMax 0 (ca.2 / ca.1)))

/-- The value that `kernel_xy_packed` stores into `buffer[index]`. -/
def cellValuePacked (fl : cell_flags_t) (w : Nat) (inner outer : F) (world_state : List F)
    (world_properties : List Nat) (index : Nat) : Option F :=
  match world_properties[index]? with
  | none => none
  | some p =>
    if isFixedOrInsulator fl p then world_state[index]?
    else
      (accumulatePacked w inner outer world_state p index).map
        (fun ca => stdMin 1 (stdMax 0 (ca.2 / ca.1)))

/-- The relation between the device state `d` read by one iteration of the
step loop of `StepWorldV3OpenCL` on a `w × h` grid and the state `e` it
produces: every cell receives the value `kernel_xy` stores for it. -/
def V3Next (fl : cell_flags_t) (w h : Nat) (inner outer : F) (dprops : List Nat)
    (d e : List F) : Prop :=
  4 * (w * h) < 4294967296 ∧ d.length = w * h ∧ e.length = w * h ∧
    ∀ i, i < w * h →
      e[i]? = cellValue fl w inner outer d dprops i ∧
      (cellValue fl w inner outer d dprops i).isSome = true

/-- The relation between the device state `d` read by one iteration of the
step loop of `StepWorldV5PackedProperties` on a `w × h` grid and the state `e`
it produces. -/
def V5Next (fl : cell_flags_t) (w h : Nat) (inner outer : F) (dprops : List Nat)
    (d e : List F) : Prop :=
  4 * (w * h) < 4294967296 ∧ d.length = w * h ∧ e.length = w * h ∧
    ∀ i, i < w * h →
      e[i]? = cellValuePacked fl w inner outer d dprops i ∧
      (cellValuePacked fl w inner outer d dprops i).isSome = true

/-- The array in which every cell `i < w * h` holds the value `kernel_xy`
stores for it when reading the state `d` (0 where a read is out of bounds). -/
def kernelImage (fl : cell_flags_t) (w h : Nat) (inner outer : F) (dprops : List Nat)
    (d : List F) : List F :=
  (List.range (w * h)).map (fun i => (cellValue fl w inner outer d dprops i).getD 0)

end Auxiliary

/-- The effect of one neighbour block of the PACKING loop on the word held in
`packed[index]`. -/
def packBit (fl : cell_flags_t) (properties : List Nat) (j bit q : Nat) : Option Nat :=
  match properties[j]? with
  | none => none
  | some pj => if lacksInsulator fl pj then some (q ^^^ bit) else some q

/-- The word that the PACKING loop leaves in `packed[index]`. -/
def packWord (fl : cell_flags_t) (w : Nat) (properties : List Nat) (index : Nat) : Option Nat :=
  match properties[index]? with
  | none => none
  | some p =>
    if ¬ (p &&& fl.Cell_Fixed ≠ 0) ∧ ¬ (p &&& fl.Cell_Insulator ≠ 0) then
      (((packBit fl properties (indexAbove index w) 4 p).bind
        (packBit fl properties (indexBelow index w) 8)).bind
        (packBit fl properties (indexLeft index) 16)).bind
        (packBit fl properties (indexRight index) 32)
    else some p

/-! ## Concrete grids -/

/-- The 3 × 3 grid of the single-step example: a Fixed border at 0 around one
unmarked cell at 1, with `alpha = 1`. -/
def exampleWorld : world_t ℚ :=
  { w := 3, h := 3, alpha := 1, t := 0,
    state := [0, 0, 0, 0, 1, 0, 0, 0, 0],
    properties := [1, 1, 1, 1, 0, 1, 1, 1, 1] }

/-- A 4 × 3 grid with a Fixed border at 0, an unmarked cell (index 5) at 1/2
and an interior Insulator cell (index 6) at 3/4. -/
def insulatedWorld : world_t ℚ :=
  { w := 4, h := 3, alpha := 1, t := 0,
    state := [0, 0, 0, 0, 0, 1 / 2, 3 / 4, 0, 0, 0, 0, 0],
    properties := [1, 1, 1, 1, 1, 0, 2, 1, 1, 1, 1, 1] }

/-- A 3 × 3 grid whose centre is a Fixed heat source holding the value 2. -/
def hotWorld : world_t ℚ :=
  { w := 3, h := 3, alpha := 1, t := 0,
    state := [0, 0, 0, 0, 2, 0, 0, 0, 0],
    properties := [1, 1, 1, 1, 1, 1, 1, 1, 1] }

/-- The property words of a 65536 × 65537 grid: every cell is Fixed except the
cell `(1, 65535)`, whose flat index is 4294901761. -/
def giantProperties : List Nat :=
  (List.range (65536 * 65537)).map (fun i => if i = 4294901761 then 0 else 1)

/-! ## Bounds-checked writes and counted loops -/

theorem storeAt_eq_some {α : Type} {a out : List α} {i : Nat} {v : α} :
    storeAt a i v = some out ↔ i < a.length ∧ out = a.set i v := by
  unfold storeAt
  by_cases h : i < a.length
  · simp [h, eq_comm]
  · simp [h]

theorem forRange_succ {σ : Type} (n : Nat) (body : Nat → σ → Option σ) (s : σ) :
    forRange (n + 1) body s = (forRange n body s).bind (body n) := rfl

theorem forRange_congr {σ : Type} (n : Nat) (b1 b2 : Nat → σ → Option σ)
    (h : ∀ i, i < n → ∀ s, b1 i s = b2 i s) (s : σ) :
    forRange n b1 s = forRange n b2 s := by
  induction n with
  | zero => rfl
  | succ n ih =>
    rw [forRange_succ, forRange_succ, ih (fun i hi => h i (Nat.lt_succ_of_lt hi))]
    cases forRange n b2 s with
    | none => rfl
    | some s1 => exact h n (Nat.lt_succ_self n) s1

theorem forRange_add {σ : Type} (a b : Nat) (body : Nat → σ → Option σ) (s : σ) :
    forRange (a + b) body s
      = (forRange a body s).bind (forRange b (fun i => body (a + i))) := by
  induction b with
  | zero =>
    cases h : forRange a body s <;> simp [forRange, h]
  | succ b ih =>
    rw [← Nat.add_assoc, forRange_succ, ih]
    cases forRange a body s with
    | none => rfl
    | some s1 => rfl

theorem forRange_nested_flat {σ : Type} (w h : Nat) (f : Nat → Nat → σ → Option σ) (s : σ) :
    forRange h (fun y s => forRange w (fun x s => f x y s) s) s
      = forRange (h * w) (fun i s => f (i % w) (i / w) s) s := by
  induction h with
  | zero => simp [forRange]
  | succ h ih =>
    rw [forRange_succ, ih, Nat.succ_mul, forRange_add]
    cases forRange (h * w) (fun i s => f (i % w) (i / w) s) s with
    | none => rfl
    | some s1 =>
      simp only [Option.some_bind]
      apply forRange_congr
      intro i hi s2
      have hw : 0 < w := Nat.lt_of_le_of_lt (Nat.zero_le _) hi
      have h1 : (h * w + i) % w = i := by
        rw [Nat.add_comm, Nat.add_mul_mod_self_right, Nat.mod_eq_of_lt hi]
      have h2 : (h * w + i) / w = h := by
        rw [Nat.add_comm, Nat.add_mul_div_right _ _ hw, Nat.div_eq_of_lt hi, Nat.zero_add]
      rw [h1, h2]

theorem forRange_write_ok {α : Type} (n : Nat) (idx : Nat → Nat) (val : Nat → Option α)
    (buf out : List α)
    (h : forRange n (fun i b => (val i).bind (storeAt b (idx i))) buf = some out) :
    out.length = buf.length ∧ ∀ i, i < n → (val i).isSome = true ∧ idx i < buf.length := by
  induction n generalizing out with
  | zero =>
    simp only [forRange, Option.some.injEq] at h
    subst h
    exact ⟨rfl, fun i hi => absurd hi (Nat.not_lt_zero i)⟩
  | succ n ih =>
    rw [forRange_succ, Option.bind_eq_some] at h
    obtain ⟨mid, hmid, hstep⟩ := h
    obtain ⟨hl, hall⟩ := ih mid hmid
    rw [Option.bind_eq_some] at hstep
    obtain ⟨v, hv, hst⟩ := hstep
    rw [storeAt_eq_some] at hst
    obtain ⟨hlt, rfl⟩ := hst
    refine ⟨by rw [List.length_set, hl], ?_⟩
    intro i hi
    rcases Nat.lt_succ_iff_lt_or_eq.mp hi with hi | rfl
    · exact hall i hi
    · exact ⟨by simp [hv], hl ▸ hlt⟩

theorem forRange_write_get {α : Type} (n : Nat) (val : Nat → Option α) (buf out : List α)
    (h : forRange n (fun i b => (val i).bind (storeAt b i)) buf = some out) :
    (∀ i, i < n → out[i]? = val i) ∧ ∀ j, n ≤ j → out[j]? = buf[j]? := by
  induction n generalizing out with
  | zero =>
    simp only [forRange, Option.some.injEq] at h
    subst h
    exact ⟨fun i hi => absurd hi (Nat.not_lt_zero i), fun _ _ => rfl⟩
  | succ n ih =>
    rw [forRange_succ, Option.bind_eq_some] at h
    obtain ⟨mid, hmid, hstep⟩ := h
    obtain ⟨hlo, hhi⟩ := ih mid hmid
    rw [Option.bind_eq_some] at hstep
    obtain ⟨v, hv, hst⟩ := hstep
    rw [storeAt_eq_some] at hst
    obtain ⟨hlt, rfl⟩ := hst
    constructor
    · intro i hi
      rcases Nat.lt_succ_iff_lt_or_eq.mp hi with hi | rfl
      · rw [List.getElem?_set_ne (by omega), hlo i hi]
      · rw [List.getElem?_set_self hlt, hv]
    · intro j hj
      rw [List.getElem?_set_ne (by omega), hhi j (by omega)]

theorem forRange_write_total {α : Type} (n : Nat) (val : Nat → Option α) (buf : List α)
    (hn : n ≤ buf.length) (hv : ∀ i, i < n → (val i).isSome = true) :
    ∃ out, forRange n (fun i b => (val i).bind (storeAt b i)) buf = some out := by
  induction n with
  | zero => exact ⟨buf, rfl⟩
  | succ n ih =>
    obtain ⟨mid, hmid⟩ := ih (by omega) (fun i hi => hv i (Nat.lt_succ_of_lt hi))
    have hl := (forRange_write_ok n (fun i => i) val buf mid hmid).1
    obtain ⟨v, hval⟩ := Option.isSome_iff_exists.mp (hv n (Nat.lt_succ_self n))
    refine ⟨mid.set n v, ?_⟩
    rw [forRange_succ, hmid, Option.some_bind, hval, Option.some_bind, storeAt_eq_some]
    exact ⟨by omega, rfl⟩

/-! ## The dispatch over the `w × h` index space -/

theorem cellIndex_flat (w i : Nat) : cellIndex (i % w) (i / w) w = i % 4294967296 := by
  unfold cellIndex
  rw [Nat.mul_comm, Nat.div_add_mod]

theorem dispatch_flat {α : Type} (w h : Nat) (val : Nat → Option α) (buf : List α) :
    enqueueNDRangeKernel w h
        (fun x y b => (val (cellIndex x y w)).bind (storeAt b (cellIndex x y w))) buf
      = forRange (h * w)
          (fun i b => (val (i % 4294967296)).bind (storeAt b (i % 4294967296))) buf := by
  unfold enqueueNDRangeKernel
  rw [forRange_nested_flat]
  apply forRange_congr
  intro i _ s
  simp only [cellIndex_flat]

theorem dispatch_spec {α : Type} (w h : Nat) (val : Nat → Option α) (buf out : List α)
    (hlen : buf.length < 4294967296)
    (hrun : enqueueNDRangeKernel w h
        (fun x y b => (val (cellIndex x y w)).bind (storeAt b (cellIndex x y w))) buf
      = some out) :
    w * h ≤ buf.length ∧ out.length = buf.length ∧
      (∀ i, i < w * h → out[i]? = val i ∧ (val i).isSome = true) ∧
      ∀ j, w * h ≤ j → out[j]? = buf[j]? := by
  rw [dispatch_flat] at hrun
  obtain ⟨hl, hall⟩ := forRange_write_ok (h * w) (fun i => i % 4294967296)
    (fun i => val (i % 4294967296)) buf out hrun
  have hwh : w * h ≤ buf.length := by
    by_contra hcon
    have hlt : buf.length < h * w := by rw [Nat.mul_comm]; omega
    have := (hall buf.length hlt).2
    simp only [Nat.mod_eq_of_lt hlen] at this
    omega
  have hrun2 : forRange (h * w) (fun i b => (val i).bind (storeAt b i)) buf = some out := by
    rw [← hrun]
    apply forRange_congr
    intro i hi s
    have : i % 4294967296 = i := Nat.mod_eq_of_lt (by rw [Nat.mul_comm] at hi; omega)
    simp only [this]
  obtain ⟨hlo, hhi⟩ := forRange_write_get (h * w) val buf out hrun2
  refine ⟨hwh, hl, ?_, ?_⟩
  · intro i hi
    have hi2 : i < h * w := by rw [Nat.mul_comm]; exact hi
    refine ⟨hlo i hi2, ?_⟩
    have := (hall i hi2).1
    have hm : i % 4294967296 = i := Nat.mod_eq_of_lt (by omega)
    simpa only [hm] using this
  · intro j hj
    exact hhi j (by rw [Nat.mul_comm]; exact hj)

theorem dispatch_total {α : Type} (w h : Nat) (val : Nat → Option α) (buf : List α)
    (hwh : w * h ≤ buf.length) (hlen : w * h ≤ 4294967296)
    (hv : ∀ i, i < w * h → (val i).isSome = true) :
    ∃ out, enqueueNDRangeKernel w h
        (fun x y b => (val (cellIndex x y w)).bind (storeAt b (cellIndex x y w))) buf
      = some out := by
  rw [dispatch_flat]
  obtain ⟨out, hout⟩ := forRange_write_total (h * w) val buf (by rw [Nat.mul_comm]; exact hwh)
    (fun i hi => hv i (by rw [Nat.mul_comm]; exact hi))
  refine ⟨out, ?_⟩
  rw [← hout]
  apply forRange_congr
  intro i hi s
  have : i % 4294967296 = i := Nat.mod_eq_of_lt (by rw [Nat.mul_comm] at hi; omega)
  simp only [this]

/-! ## What the kernels and the PACKING body store -/

section KernelFacts

variable {F : Type} [Add F] [Mul F] [Div F] [Zero F] [One F]
  [LT F] [DecidableRel (fun a b : F => a < b)]

theorem kernel_xy_eq (fl : cell_flags_t) (x y w : Nat) (inner outer : F)
    (world_state : List F) (world_properties : List Nat) (buffer : List F) :
    kernel_xy fl x y w inner outer world_state world_properties buffer
      = (cellValue fl w inner outer world_state world_properties (cellIndex x y w)).bind
          (storeAt buffer (cellIndex x y w)) := by
  unfold kernel_xy cellValue
  dsimp only
  cases world_properties[cellIndex x y w]? with
  | none => rfl
  | some p =>
    by_cases hm : isFixedOrInsulator fl p
    · simp only [hm, if_true]
      cases world_state[cellIndex x y w]? <;> rfl
    · simp only [hm, if_false]
      cases accumulate fl w inner outer world_state world_properties (cellIndex x y w) <;> rfl

theorem kernel_xy_packed_eq (fl : cell_flags_t) (x y w : Nat) (inner outer : F)
    (world_state : List F) (world_properties : List Nat) (buffer : List F) :
    kernel_xy_packed fl x y w inner outer world_state world_properties buffer
      = (cellValuePacked fl w inner outer world_state world_properties (cellIndex x y w)).bind
          (storeAt buffer (cellIndex x y w)) := by
  unfold kernel_xy_packed cellValuePacked
  dsimp only
  cases world_properties[cellIndex x y w]? with
  | none => rfl
  | some p =>
    by_cases hm : isFixedOrInsulator fl p
    · simp only [hm, if_true]
      cases world_state[cellIndex x y w]? <;> rfl
    · simp only [hm, if_false]
      cases accumulatePacked w inner outer world_state p (cellIndex x y w) <;> rfl

end KernelFacts

theorem packNeighbour_set (fl : cell_flags_t) (properties : List Nat) (index j bit q : Nat)
    (packed : List Nat) (hi : index < packed.length) :
    packNeighbour fl properties index j bit (packed.set index q)
      = (packBit fl properties j bit q).map (fun r => packed.set index r) := by
  unfold packNeighbour packBit
  cases properties[j]? with
  | none => rfl
  | some pj =>
    by_cases hl : lacksInsulator fl pj
    · simp only [hl, if_true, List.getElem?_set_self hi, Option.map_some']
      rw [storeAt_eq_some]
      exact ⟨by rw [List.length_set]; exact hi, by rw [List.set_set]⟩
    · simp only [hl, if_false, Option.map_some']

theorem packCell_eq (fl : cell_flags_t) (x y w : Nat) (properties packed : List Nat) :
    packCell fl x y w properties packed
      = (packWord fl w properties (cellIndex x y w)).bind
          (storeAt packed (cellIndex x y w)) := by
  unfold packCell packWord
  dsimp only
  cases properties[cellIndex x y w]? with
  | none => rfl
  | some p =>
    simp only
    by_cases hi : cellIndex x y w < packed.length
    · have hst : ∀ r, storeAt packed (cellIndex x y w) r = some (packed.set (cellIndex x y w) r) :=
        fun r => storeAt_eq_some.mpr ⟨hi, rfl⟩
      simp only [hst, List.getElem?_set_self hi]
      by_cases hc : ¬ (p &&& fl.Cell_Fixed ≠ 0) ∧ ¬ (p &&& fl.Cell_Insulator ≠ 0)
      · simp only [hc, and_self, if_true]
        rw [packNeighbour_set _ _ _ _ _ _ _ hi]
        cases packBit fl properties (indexAbove (cellIndex x y w) w) 4 p with
        | none => rfl
        | some q1 =>
          simp only [Option.map_some', Option.some_bind]
          rw [packNeighbour_set _ _ _ _ _ _ _ hi]
          cases packBit fl properties (indexBelow (cellIndex x y w) w) 8 q1 with
          | none => rfl
          | some q2 =>
            simp only [Option.map_some', Option.some_bind]
            rw [packNeighbour_set _ _ _ _ _ _ _ hi]
            cases packBit fl properties (indexLeft (cellIndex x y w)) 16 q2 with
            | none => rfl
            | some q3 =>
              simp only [Option.map_some', Option.some_bind]
              rw [packNeighbour_set _ _ _ _ _ _ _ hi]
              cases packBit fl properties (indexRight (cellIndex x y w)) 32 q3 with
              | none => rfl
              | some q4 => rfl
      · simp only [hc, if_false, Option.some_bind]
    · have hst : ∀ r, storeAt packed (cellIndex x y w) r = none := by
        intro r
        unfold storeAt
        simp [hi]
      simp only [hst]
      cases (if ¬ (p &&& fl.Cell_Fixed ≠ 0) ∧ ¬ (p &&& fl.Cell_Insulator ≠ 0) then
          (((packBit fl properties (indexAbove (cellIndex x y w) w) 4 p).bind
            (packBit fl properties (indexBelow (cellIndex x y w) w) 8)).bind
            (packBit fl properties (indexLeft (cellIndex x y w)) 16)).bind
            (packBit fl properties (indexRight (cellIndex x y w)) 32)
        else some p) with
      | none => rfl
      | some r => simp only [Option.some_bind, hst]

/-! ## Transfers -/

theorem cbBuffer_eq (w h : Nat) : cbBuffer w h = (4 * (w * h)) % 4294967296 := by
  unfold cbBuffer
  rw [Nat.mul_assoc]

theorem cbBuffer_div_le (w h : Nat) : cbBuffer w h / 4 ≤ w * h := by
  rw [cbBuffer_eq]
  omega

theorem cbBuffer_div_lt (w h : Nat) : cbBuffer w h / 4 < 4294967296 := by
  rw [cbBuffer_eq]
  omega

theorem cbBuffer_of_le (w h : Nat) (hle : w * h ≤ cbBuffer w h / 4) :
    4 * (w * h) < 4294967296 ∧ cbBuffer w h / 4 = w * h ∧ cbBuffer w h = 4 * (w * h) := by
  rw [cbBuffer_eq] at hle ⊢
  omega

theorem cbBuffer_of_lt (w h : Nat) (hlt : 4 * (w * h) < 4294967296) :
    cbBuffer w h / 4 = w * h ∧ cbBuffer w h = 4 * (w * h) := by
  rw [cbBuffer_eq]
  omega

theorem enqueueWriteBuffer_eq_some {α : Type} {cb : Nat} {host dev : List α} :
    enqueueWriteBuffer cb host = some dev ↔ cb ≤ 4 * host.length ∧ dev = host.take (cb / 4) := by
  unfold enqueueWriteBuffer
  by_cases h : cb ≤ 4 * host.length
  · simp [h, eq_comm]
  · simp [h]

theorem enqueueReadBuffer_eq_some {α : Type} {cb : Nat} {dev host out : List α} :
    enqueueReadBuffer cb dev host = some out ↔
      (cb ≤ 4 * host.length ∧ cb ≤ 4 * dev.length) ∧
        out = dev.take (cb / 4) ++ host.drop (cb / 4) := by
  unfold enqueueReadBuffer
  by_cases h : cb ≤ 4 * host.length ∧ cb ≤ 4 * dev.length
  · simp [h, eq_comm]
  · simp [h]

theorem forRange_invariant {σ : Type} (P : Nat → σ → Prop) (n : Nat)
    (body : Nat → σ → Option σ) (s out : σ) (h0 : P 0 s)
    (hstep : ∀ i a b, i < n → P i a → body i a = some b → P (i + 1) b)
    (h : forRange n body s = some out) : P n out := by
  induction n generalizing out with
  | zero =>
    simp only [forRange, Option.some.injEq] at h
    exact h ▸ h0
  | succ n ih =>
    rw [forRange_succ, Option.bind_eq_some] at h
    obtain ⟨mid, hmid, hb⟩ := h
    exact hstep n mid out (Nat.lt_succ_self n)
      (ih mid (fun i a b hi => hstep i a b (Nat.lt_succ_of_lt hi)) hmid) hb

theorem forRange_total {σ : Type} (P : Nat → σ → Prop) (n : Nat)
    (body : Nat → σ → Option σ) (s : σ) (h0 : P 0 s)
    (hstep : ∀ i a, i < n → P i a → ∃ b, body i a = some b ∧ P (i + 1) b) :
    ∃ out, forRange n body s = some out ∧ P n out := by
  induction n with
  | zero => exact ⟨s, rfl, h0⟩
  | succ n ih =>
    obtain ⟨mid, hmid, hP⟩ := ih (fun i a hi => hstep i a (Nat.lt_succ_of_lt hi))
    obtain ⟨b, hb, hPb⟩ := hstep n mid (Nat.lt_succ_self n) hP
    exact ⟨b, by rw [forRange_succ, hmid]; exact hb, hPb⟩

/-! ## Flat indices -/

theorem flat_lt {w h x y : Nat} (hx : x < w) (hy : y < h) : y * w + x < w * h := by
  have h1 : (y + 1) * w ≤ h * w := Nat.mul_le_mul_right w hy
  rw [Nat.succ_mul, Nat.mul_comm h w] at h1
  omega

theorem flat_decompose {w h i : Nat} (hi : i < w * h) :
    i % w < w ∧ i / w < h ∧ i / w * w + i % w = i := by
  have hw : 0 < w := by
    rcases Nat.eq_zero_or_pos w with h0 | h0
    · subst h0; simp at hi
    · exact h0
  refine ⟨Nat.mod_lt _ hw, ?_, ?_⟩
  · rw [Nat.div_lt_iff_lt_mul hw, Nat.mul_comm]; exact hi
  · rw [Nat.mul_comm]; exact Nat.div_add_mod i w

theorem cellIndex_eq {w h x y : Nat} (hN : w * h ≤ 4294967296) (hx : x < w) (hy : y < h) :
    cellIndex x y w = y * w + x := by
  unfold cellIndex
  have := flat_lt hx hy
  exact Nat.mod_eq_of_lt (by omega)

theorem neighbour_indices {w h x y : Nat} (hN : w * h ≤ 4294967296)
    (hx0 : 0 < x) (hx1 : x + 1 < w) (hy0 : 0 < y) (hy1 : y + 1 < h) :
    indexAbove (y * w + x) w = (y - 1) * w + x ∧
    indexBelow (y * w + x) w = (y + 1) * w + x ∧
    indexLeft (y * w + x) = y * w + (x - 1) ∧
    indexRight (y * w + x) = y * w + (x + 1) ∧
    (y + 1) * w + x < w * h := by
  obtain ⟨y', rfl⟩ : ∃ y', y = y' + 1 := ⟨y - 1, by omega⟩
  have hlt : (y' + 1 + 1) * w + x < w * h := flat_lt (by omega) hy1
  have e1 : (y' + 1) * w = y' * w + w := Nat.succ_mul y' w
  have e2 : (y' + 1 + 1) * w = y' * w + w + w := by rw [Nat.succ_mul, e1]
  have e3 : (y' + 1 - 1) * w = y' * w := by rw [Nat.add_sub_cancel]
  unfold indexAbove indexBelow indexLeft indexRight
  rw [e3] 
  rw [e2] at hlt ⊢
  rw [e1]
  have hw : w % 4294967296 = w := Nat.mod_eq_of_lt (by omega)
  rw [hw]
  refine ⟨?_, ?_, ?_, ?_, hlt⟩ <;> omega

/-! ## In-bounds reads under the boundary precondition -/

theorem interior_of_unmarked {fl : cell_flags_t} {w h x y p : Nat} {properties : List Nat}
    (hb : boundaryMarked fl w h properties) (hx : x < w) (hy : y < h)
    (hp : properties[y * w + x]? = some p) (hm : ¬ isFixedOrInsulator fl p) :
    0 < x ∧ x + 1 < w ∧ 0 < y ∧ y + 1 < h := by
  have key : ¬ (x = 0 ∨ x + 1 = w ∨ y = 0 ∨ y + 1 = h) := by
    intro hbd
    obtain ⟨q, hq, hmq⟩ := hb x hx y hy hbd
    rw [hp] at hq
    cases hq
    exact hm hmq
  omega

/-- The four neighbour indices of an unmarked cell of a boundary-marked grid
of at most `2 ^ 32` cells are in range. -/
theorem neighbours_lt {fl : cell_flags_t} {w h i p : Nat} {properties : List Nat}
    (hN : w * h ≤ 4294967296) (hb : boundaryMarked fl w h properties) (hi : i < w * h)
    (hp : properties[i]? = some p) (hm : ¬ isFixedOrInsulator fl p) :
    indexAbove i w < w * h ∧ indexBelow i w < w * h ∧
      indexLeft i < w * h ∧ indexRight i < w * h := by
  obtain ⟨hx, hy, hxy⟩ := flat_decompose hi
  have hp2 : properties[i / w * w + i % w]? = some p := by rw [hxy]; exact hp
  obtain ⟨hx0, hx1, hy0, hy1⟩ := interior_of_unmarked hb hx hy hp2 hm
  obtain ⟨ea, eb, el, er, hlt⟩ := neighbour_indices hN hx0 hx1 hy0 hy1
  rw [hxy] at ea eb el er
  rw [ea, eb, el, er]
  exact ⟨flat_lt hx (Nat.lt_of_le_of_lt (Nat.sub_le _ _) hy), hlt,
    flat_lt (Nat.lt_of_le_of_lt (Nat.sub_le _ _) hx) hy, flat_lt hx1 hy⟩

theorem packBit_isSome (fl : cell_flags_t) (properties : List Nat) (j bit q : Nat)
    (hj : j < properties.length) : ∃ r, packBit fl properties j bit q = some r := by
  unfold packBit
  obtain ⟨pj, hpj⟩ : ∃ pj, properties[j]? = some pj := ⟨_, List.getElem?_eq_getElem hj⟩
  rw [hpj]
  dsimp only
  by_cases hl : lacksInsulator fl pj
  · rw [if_pos hl]; exact ⟨_, rfl⟩
  · rw [if_neg hl]; exact ⟨_, rfl⟩

theorem packWord_isSome (fl : cell_flags_t) (w h : Nat) (properties : List Nat) (i : Nat)
    (hN : w * h ≤ 4294967296) (hb : boundaryMarked fl w h properties)
    (hp : w * h ≤ properties.length) (hi : i < w * h) :
    (packWord fl w properties i).isSome = true := by
  unfold packWord
  obtain ⟨p, hpi⟩ : ∃ p, properties[i]? = some p :=
    ⟨_, List.getElem?_eq_getElem (Nat.lt_of_lt_of_le hi hp)⟩
  rw [hpi]
  dsimp only
  by_cases hc : ¬ (p &&& fl.Cell_Fixed ≠ 0) ∧ ¬ (p &&& fl.Cell_Insulator ≠ 0)
  · rw [if_pos hc]
    have hm : ¬ isFixedOrInsulator fl p := by
      unfold isFixedOrInsulator
      tauto
    obtain ⟨ja, jb, jl, jr⟩ := neighbours_lt hN hb hi hpi hm
    obtain ⟨q1, h1⟩ := packBit_isSome fl properties (indexAbove i w) 4 p
      (Nat.lt_of_lt_of_le ja hp)
    obtain ⟨q2, h2⟩ := packBit_isSome fl properties (indexBelow i w) 8 q1
      (Nat.lt_of_lt_of_le jb hp)
    obtain ⟨q3, h3⟩ := packBit_isSome fl properties (indexLeft i) 16 q2
      (Nat.lt_of_lt_of_le jl hp)
    obtain ⟨q4, h4⟩ := packBit_isSome fl properties (indexRight i) 32 q3
      (Nat.lt_of_lt_of_le jr hp)
    simp only [h1, h2, h3, h4, Option.some_bind, Option.isSome_some]
  · rw [if_neg hc]
    rfl

section ReadFacts

variable {F : Type} [Add F] [Mul F] [Div F] [Zero F] [One F]
  [LT F] [DecidableRel (fun a b : F => a < b)]

omit [Div F] [Zero F] [One F] [LT F] [DecidableRel (fun a b : F => a < b)] in
theorem contribute_isSome (fl : cell_flags_t) (outer : F) (world_state : List F)
    (world_properties : List Nat) (j : Nat) (ca : F × F)
    (hp : j < world_properties.length) (hs : j < world_state.length) :
    ∃ r, contribute fl outer world_state world_properties j ca = some r := by
  unfold contribute
  obtain ⟨pj, hpj⟩ : ∃ pj, world_properties[j]? = some pj := ⟨_, List.getElem?_eq_getElem hp⟩
  obtain ⟨sj, hsj⟩ : ∃ sj, world_state[j]? = some sj := ⟨_, List.getElem?_eq_getElem hs⟩
  rw [hpj, hsj]
  dsimp only
  by_cases hl : lacksInsulator fl pj
  · rw [if_pos hl]; exact ⟨_, rfl⟩
  · rw [if_neg hl]; exact ⟨_, rfl⟩

omit [Div F] [Zero F] [One F] [LT F] [DecidableRel (fun a b : F => a < b)] in
theorem contributePacked_isSome (outer : F) (world_state : List F) (word bit j : Nat)
    (ca : F × F) (hs : j < world_state.length) :
    ∃ r, contributePacked outer world_state word bit j ca = some r := by
  unfold contributePacked
  obtain ⟨sj, hsj⟩ : ∃ sj, world_state[j]? = some sj := ⟨_, List.getElem?_eq_getElem hs⟩
  rw [hsj]
  dsimp only
  by_cases hl : word &&& bit ≠ 0
  · rw [if_pos hl]; exact ⟨_, rfl⟩
  · rw [if_neg hl]; exact ⟨_, rfl⟩

theorem cellValue_isSome (fl : cell_flags_t) (w h : Nat) (inner outer : F)
    (world_state : List F) (world_properties : List Nat) (i : Nat)
    (hN : w * h ≤ 4294967296) (hb : boundaryMarked fl w h world_properties)
    (hs : w * h ≤ world_state.length) (hp : w * h ≤ world_properties.length)
    (hi : i < w * h) :
    (cellValue fl w inner outer world_state world_properties i).isSome = true := by
  unfold cellValue
  obtain ⟨p, hpi⟩ : ∃ p, world_properties[i]? = some p :=
    ⟨_, List.getElem?_eq_getElem (Nat.lt_of_lt_of_le hi hp)⟩
  obtain ⟨s, hsi⟩ : ∃ s, world_state[i]? = some s :=
    ⟨_, List.getElem?_eq_getElem (Nat.lt_of_lt_of_le hi hs)⟩
  rw [hpi]
  dsimp only
  by_cases hm : isFixedOrInsulator fl p
  · rw [if_pos hm, hsi]
    rfl
  · rw [if_neg hm]
    obtain ⟨ja, jb, jl, jr⟩ := neighbours_lt hN hb hi hpi hm
    unfold accumulate
    rw [hsi]
    dsimp only
    obtain ⟨q1, h1⟩ := contribute_isSome fl outer world_state world_properties (indexAbove i w)
      (inner, inner * s) (Nat.lt_of_lt_of_le ja hp) (Nat.lt_of_lt_of_le ja hs)
    obtain ⟨q2, h2⟩ := contribute_isSome fl outer world_state world_properties (indexBelow i w)
      q1 (Nat.lt_of_lt_of_le jb hp) (Nat.lt_of_lt_of_le jb hs)
    obtain ⟨q3, h3⟩ := contribute_isSome fl outer world_state world_properties (indexLeft i)
      q2 (Nat.lt_of_lt_of_le jl hp) (Nat.lt_of_lt_of_le jl hs)
    obtain ⟨q4, h4⟩ := contribute_isSome fl outer world_state world_properties (indexRight i)
      q3 (Nat.lt_of_lt_of_le jr hp) (Nat.lt_of_lt_of_le jr hs)
    simp only [h1, h2, h3, h4, Option.some_bind, Option.map_some', Option.isSome_some]

end ReadFacts

/-! ## One iteration of each step loop -/

section StepFacts

variable {F : Type} [Add F] [Mul F] [Div F] [Zero F] [One F]
  [LT F] [DecidableRel (fun a b : F => a < b)]

theorem dispatch_kernel_xy (fl : cell_flags_t) (w h : Nat) (inner outer : F)
    (st : List F) (props : List Nat) (buf out : List F) (hlen : buf.length < 4294967296)
    (hrun : enqueueNDRangeKernel w h
        (fun x y b => kernel_xy fl x y w inner outer st props b) buf = some out) :
    w * h ≤ buf.length ∧ out.length = buf.length ∧
      (∀ i, i < w * h → out[i]? = cellValue fl w inner outer st props i ∧
        (cellValue fl w inner outer st props i).isSome = true) ∧
      ∀ j, w * h ≤ j → out[j]? = buf[j]? := by
  have hk : (fun x y b => kernel_xy fl x y w inner outer st props b)
      = (fun x y b => (cellValue fl w inner outer st props (cellIndex x y w)).bind
          (storeAt b (cellIndex x y w))) := by
    funext x y b
    exact kernel_xy_eq fl x y w inner outer st props b
  rw [hk] at hrun
  exact dispatch_spec w h (cellValue fl w inner outer st props) buf out hlen hrun

theorem dispatch_kernel_xy_packed (fl : cell_flags_t) (w h : Nat) (inner outer : F)
    (st : List F) (props : List Nat) (buf out : List F) (hlen : buf.length < 4294967296)
    (hrun : enqueueNDRangeKernel w h
        (fun x y b => kernel_xy_packed fl x y w inner outer st props b) buf = some out) :
    w * h ≤ buf.length ∧ out.length = buf.length ∧
      (∀ i, i < w * h → out[i]? = cellValuePacked fl w inner outer st props i ∧
        (cellValuePacked fl w inner outer st props i).isSome = true) ∧
      ∀ j, w * h ≤ j → out[j]? = buf[j]? := by
  have hk : (fun x y b => kernel_xy_packed fl x y w inner outer st props b)
      = (fun x y b => (cellValuePacked fl w inner outer st props (cellIndex x y w)).bind
          (storeAt b (cellIndex x y w))) := by
    funext x y b
    exact kernel_xy_packed_eq fl x y w inner outer st props b
  rw [hk] at hrun
  exact dispatch_spec w h (cellValuePacked fl w inner outer st props) buf out hlen hrun

theorem dispatch_kernel_xy_total (fl : cell_flags_t) (w h : Nat) (inner outer : F)
    (st : List F) (props : List Nat) (buf : List F)
    (hwh : w * h ≤ buf.length) (hlen : w * h ≤ 4294967296)
    (hv : ∀ i, i < w * h → (cellValue fl w inner outer st props i).isSome = true) :
    ∃ out, enqueueNDRangeKernel w h
        (fun x y b => kernel_xy fl x y w inner outer st props b) buf = some out := by
  have hk : (fun x y b => kernel_xy fl x y w inner outer st props b)
      = (fun x y b => (cellValue fl w inner outer st props (cellIndex x y w)).bind
          (storeAt b (cellIndex x y w))) := by
    funext x y b
    exact kernel_xy_eq fl x y w inner outer st props b
  rw [hk]
  exact dispatch_total w h (cellValue fl w inner outer st props) buf hwh hlen hv

theorem dispatch_kernel_xy_packed_total (fl : cell_flags_t) (w h : Nat) (inner outer : F)
    (st : List F) (props : List Nat) (buf : List F)
    (hwh : w * h ≤ buf.length) (hlen : w * h ≤ 4294967296)
    (hv : ∀ i, i < w * h → (cellValuePacked fl w inner outer st props i).isSome = true) :
    ∃ out, enqueueNDRangeKernel w h
        (fun x y b => kernel_xy_packed fl x y w inner outer st props b) buf = some out := by
  have hk : (fun x y b => kernel_xy_packed fl x y w inner outer st props b)
      = (fun x y b => (cellValuePacked fl w inner outer st props (cellIndex x y w)).bind
          (storeAt b (cellIndex x y w))) := by
    funext x y b
    exact kernel_xy_packed_eq fl x y w inner outer st props b
  rw [hk]
  exact dispatch_total w h (cellValuePacked fl w inner outer st props) buf hwh hlen hv

/-- What one successful iteration of the loop of `StepWorldV3OpenCL` does. -/
theorem stepV3_spec (fl : cell_flags_t) (w h : Nat) (inner outer dt : F)
    (dprops : List Nat) (s s' : V3Loop F)
    (hb : s.buffBuffer.length = cbBuffer w h / 4)
    (hs : stepV3 fl w h (cbBuffer w h) inner outer dt dprops s = some s') :
    4 * (w * h) < 4294967296 ∧ w * h ≤ s.world.state.length ∧ w * h ≤ s.buffer.length ∧
    s'.buffBuffer.length = cbBuffer w h / 4 ∧
    s'.buffer = s.world.state ∧
    s'.world.state.length = s.buffer.length ∧
    s'.world.t = s.world.t + dt ∧
    (s'.world.w = s.world.w ∧ s'.world.h = s.world.h ∧ s'.world.alpha = s.world.alpha ∧
      s'.world.properties = s.world.properties) ∧
    (∀ i, i < w * h →
      s'.world.state[i]? = cellValue fl w inner outer (s.world.state.take (w * h)) dprops i ∧
      (cellValue fl w inner outer (s.world.state.take (w * h)) dprops i).isSome = true) ∧
    ∀ j, w * h ≤ j → s'.world.state[j]? = s.buffer[j]? := by
  unfold stepV3 at hs
  cases hw : enqueueWriteBuffer (cbBuffer w h) s.world.state with
  | none => rw [hw] at hs; cases hs
  | some buffState =>
    rw [hw] at hs
    dsimp only at hs
    cases hd : enqueueNDRangeKernel w h
        (fun x y b => kernel_xy fl x y w inner outer buffState dprops b) s.buffBuffer with
    | none => rw [hd] at hs; cases hs
    | some out =>
      rw [hd] at hs
      dsimp only at hs
      cases hr : enqueueReadBuffer (cbBuffer w h) out s.buffer with
      | none => rw [hr] at hs; cases hs
      | some buffer =>
        rw [hr] at hs
        dsimp only at hs
        cases hs
        obtain ⟨hwle, rfl⟩ := enqueueWriteBuffer_eq_some.mp hw
        obtain ⟨⟨hrle, _⟩, rfl⟩ := enqueueReadBuffer_eq_some.mp hr
        obtain ⟨hN, hol, hval, _⟩ := dispatch_kernel_xy fl w h inner outer _ dprops
          s.buffBuffer out (by rw [hb]; exact cbBuffer_div_lt w h) hd
        rw [hb] at hN hol
        obtain ⟨hsz, hcb, hcb4⟩ := cbBuffer_of_le w h hN
        rw [hcb] at hol hval
        rw [hcb4] at hwle hrle
        have htake : List.take (w * h) out = out := List.take_of_length_le (by omega)
        dsimp only
        rw [hcb, htake]
        refine ⟨hsz, by omega, by omega, hol, rfl, ?_, rfl, ⟨rfl, rfl, rfl, rfl⟩,
          ?_, ?_⟩
        · rw [List.length_append, List.length_drop, hol]
          omega
        · intro i hi
          rw [List.getElem?_append_left (by omega)]
          exact hval i hi
        · intro j hj
          rw [List.getElem?_append_right (by omega), List.getElem?_drop, hol]
          congr 1
          omega

/-- One iteration of the loop of `StepWorldV3OpenCL` succeeds when all reads
of the kernel are in bounds. -/
theorem stepV3_total (fl : cell_flags_t) (w h : Nat) (inner outer dt : F)
    (dprops : List Nat) (s : V3Loop F)
    (hsz : 4 * (w * h) < 4294967296)
    (hb : s.buffBuffer.length = w * h) (hst : w * h ≤ s.world.state.length)
    (hbuf : w * h ≤ s.buffer.length)
    (hv : ∀ i, i < w * h →
      (cellValue fl w inner outer (s.world.state.take (w * h)) dprops i).isSome = true) :
    ∃ s', stepV3 fl w h (cbBuffer w h) inner outer dt dprops s = some s' := by
  obtain ⟨hcb, hcb4⟩ := cbBuffer_of_lt w h hsz
  unfold stepV3
  have hw : enqueueWriteBuffer (cbBuffer w h) s.world.state
      = some (s.world.state.take (w * h)) := by
    rw [enqueueWriteBuffer_eq_some, hcb, hcb4]
    exact ⟨by omega, rfl⟩
  rw [hw]
  dsimp only
  obtain ⟨out, hd⟩ := dispatch_kernel_xy_total fl w h inner outer
    (s.world.state.take (w * h)) dprops s.buffBuffer (by omega) (by omega) hv
  rw [hd]
  dsimp only
  have hol := (dispatch_kernel_xy fl w h inner outer _ dprops s.buffBuffer out
    (by omega) hd).2.1
  have hr : enqueueReadBuffer (cbBuffer w h) out s.buffer
      = some (out.take (cbBuffer w h / 4) ++ s.buffer.drop (cbBuffer w h / 4)) := by
    rw [enqueueReadBuffer_eq_some, hcb4]
    exact ⟨⟨by omega, by omega⟩, rfl⟩
  rw [hr]
  exact ⟨_, rfl⟩

/-- What one successful iteration of the loop of `StepWorldV5PackedProperties`
does. -/
theorem stepV5_spec (fl : cell_flags_t) (w h : Nat) (inner outer dt : F)
    (dprops : List Nat) (s s' : V5Loop F)
    (hb : s.buffBuffer.length < 4294967296)
    (hs : stepV5 fl w h inner outer dt dprops s = some s') :
    w * h ≤ s.buffBuffer.length ∧
    s'.buffState.length = s.buffBuffer.length ∧
    s'.buffBuffer = s.buffState ∧
    s'.t = s.t + dt ∧
    (∀ i, i < w * h →
      s'.buffState[i]? = cellValuePacked fl w inner outer s.buffState dprops i ∧
      (cellValuePacked fl w inner outer s.buffState dprops i).isSome = true) ∧
    ∀ j, w * h ≤ j → s'.buffState[j]? = s.buffBuffer[j]? := by
  unfold stepV5 at hs
  cases hd : enqueueNDRangeKernel w h
      (fun x y b => kernel_xy_packed fl x y w inner outer s.buffState dprops b)
      s.buffBuffer with
  | none => rw [hd] at hs; cases hs
  | some out =>
    rw [hd] at hs
    dsimp only at hs
    cases hs
    obtain ⟨hN, hol, hval, hrest⟩ := dispatch_kernel_xy_packed fl w h inner outer _ dprops
      s.buffBuffer out hb hd
    exact ⟨hN, hol, rfl, rfl, hval, hrest⟩

theorem stepV5_total (fl : cell_flags_t) (w h : Nat) (inner outer dt : F)
    (dprops : List Nat) (s : V5Loop F)
    (hsz : w * h ≤ 4294967296) (hb : w * h ≤ s.buffBuffer.length)
    (hv : ∀ i, i < w * h →
      (cellValuePacked fl w inner outer s.buffState dprops i).isSome = true) :
    ∃ s', stepV5 fl w h inner outer dt dprops s = some s' := by
  unfold stepV5
  obtain ⟨out, hd⟩ := dispatch_kernel_xy_packed_total fl w h inner outer
    s.buffState dprops s.buffBuffer hb hsz hv
  rw [hd]
  exact ⟨_, rfl⟩

end StepFacts

/-- What a successful PACKING loop leaves in `packed`. -/
theorem PACKING_spec (fl : cell_flags_t) (w h : Nat) (properties packed : List Nat)
    (hrun : PACKING fl w h properties = some packed) :
    w * h < 4294967296 ∧ packed.length = w * h ∧
      ∀ i, i < w * h → packed[i]? = packWord fl w properties i ∧
        (packWord fl w properties i).isSome = true := by
  have hk : PACKING fl w h properties
      = enqueueNDRangeKernel w h
          (fun x y b => (packWord fl w properties (cellIndex x y w)).bind
            (storeAt b (cellIndex x y w)))
          (List.replicate ((w * h) % 4294967296) 0) := by
    unfold PACKING enqueueNDRangeKernel
    simp only [packCell_eq]
  rw [hk] at hrun
  have hlen : (List.replicate ((w * h) % 4294967296) 0).length < 4294967296 := by
    rw [List.length_replicate]
    omega
  obtain ⟨hN, hol, hval, _⟩ := dispatch_spec w h (packWord fl w properties) _ packed hlen hrun
  rw [List.length_replicate] at hN hol
  have hlt : w * h < 4294967296 := by omega
  exact ⟨hlt, by omega, hval⟩

theorem PACKING_total (fl : cell_flags_t) (w h : Nat) (properties : List Nat)
    (hsz : w * h < 4294967296)
    (hv : ∀ i, i < w * h → (packWord fl w properties i).isSome = true) :
    ∃ packed, PACKING fl w h properties = some packed := by
  have hk : PACKING fl w h properties
      = enqueueNDRangeKernel w h
          (fun x y b => (packWord fl w properties (cellIndex x y w)).bind
            (storeAt b (cellIndex x y w)))
          (List.replicate ((w * h) % 4294967296) 0) := by
    unfold PACKING enqueueNDRangeKernel
    simp only [packCell_eq]
  rw [hk]
  exact dispatch_total w h (packWord fl w properties) _
    (by rw [List.length_replicate]; omega) (by omega) hv

/-! ## Whole runs -/

section RunFacts

variable {F : Type} [Add F] [Sub F] [Mul F] [Div F] [Zero F] [One F] [OfNat F 4]
  [LT F] [DecidableRel (fun a b : F => a < b)]

/-- Everything a successful call of `StepWorldV3OpenCL` guarantees: the static
fields are kept, and any step-indexed invariant of the first `w * h` cells and
the time that is preserved by `V3Next` holds at the end. -/
theorem StepWorldV3OpenCL_run (fl : cell_flags_t) (junk : Nat → F) (world world' : world_t F)
    (dt : F) (n : Nat) (hrun : StepWorldV3OpenCL fl junk world dt n = some world') :
    (world'.w = world.w ∧ world'.h = world.h ∧ world'.alpha = world.alpha ∧
      world'.properties = world.properties) ∧
    (n = 0 → world' = world) ∧
    (0 < n → 4 * (world.w * world.h) < 4294967296 ∧
      world.w * world.h ≤ world.state.length ∧
      world.w * world.h ≤ world.properties.length ∧
      world.w * world.h ≤ world'.state.length ∧
      (world'.state.length = world.state.length ∨
        world'.state.length = world.w * world.h)) ∧
    ∀ P : Nat → List F → F → Prop,
      P 0 (world.state.take (world.w * world.h)) world.t →
      (∀ k d t e, k < n → P k d t →
        V3Next fl world.w world.h (stepInner world.alpha dt) (stepOuter world.alpha dt)
          (world.properties.take (world.w * world.h)) d e → P (k + 1) e (t + dt)) →
      P n (world'.state.take (world.w * world.h)) world'.t := by
  unfold StepWorldV3OpenCL at hrun
  dsimp only at hrun
  cases hw : enqueueWriteBuffer (cbBuffer world.w world.h) world.properties with
  | none => rw [hw] at hrun; cases hrun
  | some dprops =>
    rw [hw] at hrun
    dsimp only at hrun
    obtain ⟨hple, rfl⟩ := enqueueWriteBuffer_eq_some.mp hw
    rw [Option.map_eq_some'] at hrun
    obtain ⟨fin, hloop, rfl⟩ := hrun
    -- the loop invariant
    have key : ∀ P : Nat → List F → F → Prop,
        P 0 (world.state.take (world.w * world.h)) world.t →
        (∀ k d t e, k < n → P k d t →
          V3Next fl world.w world.h (stepInner world.alpha dt) (stepOuter world.alpha dt)
            (world.properties.take (world.w * world.h)) d e → P (k + 1) e (t + dt)) →
        (fin.buffBuffer.length = cbBuffer world.w world.h / 4 ∧
          (fin.world.w = world.w ∧ fin.world.h = world.h ∧ fin.world.alpha = world.alpha ∧
            fin.world.properties = world.properties) ∧
          (n = 0 → fin.world = world) ∧
          (0 < n → 4 * (world.w * world.h) < 4294967296 ∧
            world.w * world.h ≤ world.state.length ∧
            world.w * world.h ≤ fin.world.state.length ∧
            world.w * world.h ≤ fin.buffer.length) ∧
          ((fin.world.state.length = world.state.length ∧
              fin.buffer.length = (world.w * world.h) % 4294967296) ∨
            (fin.world.state.length = (world.w * world.h) % 4294967296 ∧
              fin.buffer.length = world.state.length)) ∧
          P n (fin.world.state.take (world.w * world.h)) fin.world.t) := by
      intro P h0 hstep
      refine forRange_invariant
        (fun k (s : V3Loop F) =>
          s.buffBuffer.length = cbBuffer world.w world.h / 4 ∧
          (s.world.w = world.w ∧ s.world.h = world.h ∧ s.world.alpha = world.alpha ∧
            s.world.properties = world.properties) ∧
          (k = 0 → s.world = world) ∧
          (0 < k → 4 * (world.w * world.h) < 4294967296 ∧
            world.w * world.h ≤ world.state.length ∧
            world.w * world.h ≤ s.world.state.length ∧
            world.w * world.h ≤ s.buffer.length) ∧
          ((s.world.state.length = world.state.length ∧
              s.buffer.length = (world.w * world.h) % 4294967296) ∨
            (s.world.state.length = (world.w * world.h) % 4294967296 ∧
              s.buffer.length = world.state.length)) ∧
          P k (s.world.state.take (world.w * world.h)) s.world.t)
        n _ _ fin ?_ ?_ hloop
      · refine ⟨by simp, ⟨rfl, rfl, rfl, rfl⟩, fun _ => rfl, fun h => absurd h (Nat.lt_irrefl 0),
          Or.inl ⟨rfl, by simp⟩, h0⟩
      · intro k a b hk ⟨hbb, hf, hk0, hkpos, hlen, hP⟩ hab
        obtain ⟨hsz, hsl, hbl, hbb', hbuf', hsl', ht', hf', hval, _⟩ :=
          stepV3_spec fl world.w world.h _ _ dt _ a b hbb hab
        obtain ⟨hcb, _⟩ := cbBuffer_of_lt world.w world.h hsz
        have hmod : (world.w * world.h) % 4294967296 = world.w * world.h :=
          Nat.mod_eq_of_lt (by omega)
        have hw0 : world.w * world.h ≤ world.state.length := by
          rcases Nat.eq_zero_or_pos k with hk00 | hkp
          · rw [hk0 hk00] at hsl; exact hsl
          · exact (hkpos hkp).2.1
        refine ⟨hbb', ?_, ?_, ?_, ?_, ?_⟩
        · obtain ⟨h1, h2, h3, h4⟩ := hf
          obtain ⟨h1', h2', h3', h4'⟩ := hf'
          exact ⟨h1'.trans h1, h2'.trans h2, h3'.trans h3, h4'.trans h4⟩
        · intro h; omega
        · intro _
          refine ⟨hsz, hw0, by omega, by rw [hbuf']; exact hsl⟩
        · rw [hbuf', hsl']
          rcases hlen with ⟨h1, h2⟩ | ⟨h1, h2⟩
          · exact Or.inr ⟨h2, h1⟩
          · exact Or.inl ⟨h2, h1⟩
        · rw [ht']
          apply hstep k _ _ _ hk hP
          refine ⟨hsz, ?_, ?_, ?_⟩
          · rw [List.length_take]; omega
          · rw [List.length_take]; omega
          · intro i hi
            rw [List.getElem?_take_of_lt hi]
            rw [hcb] at hval
            exact hval i hi
    obtain ⟨_, hf, hn0, hnpos, hlen, _⟩ := key (fun _ _ _ => True) trivial
      (fun _ _ _ _ _ _ _ => trivial)
    refine ⟨hf, hn0, ?_, fun P h0 hstep => (key P h0 hstep).2.2.2.2.2⟩
    intro hn
    obtain ⟨hsz, h1, h2, _⟩ := hnpos hn
    have hmod : (world.w * world.h) % 4294967296 = world.w * world.h :=
      Nat.mod_eq_of_lt (by omega)
    obtain ⟨hcb, hcb4⟩ := cbBuffer_of_lt world.w world.h hsz
    rw [hcb4] at hple
    refine ⟨hsz, h1, by omega, h2, ?_⟩
    rw [hmod] at hlen
    rcases hlen with ⟨h3, _⟩ | ⟨h3, _⟩
    · exact Or.inl h3
    · exact Or.inr h3


/-- Everything a successful call of `StepWorldV5PackedProperties` guarantees. -/
theorem StepWorldV5PackedProperties_run (fl : cell_flags_t) (junk : Nat → F)
    (world world' : world_t F) (dt : F) (n : Nat)
    (hrun : StepWorldV5PackedProperties fl junk world dt n = some world') :
    ∃ packed, PACKING fl world.w world.h world.properties = some packed ∧
    (world'.w = world.w ∧ world'.h = world.h ∧ world'.alpha = world.alpha ∧
      world'.properties = world.properties) ∧
    world'.state.length = world.state.length ∧
    (n = 0 → world' = world) ∧
    (0 < n → 4 * (world.w * world.h) < 4294967296 ∧
      world.w * world.h ≤ world.state.length) ∧
    (∀ j, world.w * world.h ≤ j → world'.state[j]? = world.state[j]?) ∧
    ∀ P : Nat → List F → F → Prop,
      P 0 (world.state.take (world.w * world.h)) world.t →
      (∀ k d t e, k < n → P k d t →
        V5Next fl world.w world.h (stepInner world.alpha dt) (stepOuter world.alpha dt)
          (packed.take (world.w * world.h)) d e → P (k + 1) e (t + dt)) →
      P n (world'.state.take (world.w * world.h)) world'.t := by
  unfold StepWorldV5PackedProperties at hrun
  dsimp only at hrun
  cases hpk : PACKING fl world.w world.h world.properties with
  | none => rw [hpk] at hrun; cases hrun
  | some packed =>
    rw [hpk] at hrun
    dsimp only at hrun
    cases hw : enqueueWriteBuffer (cbBuffer world.w world.h) packed with
    | none => rw [hw] at hrun; cases hrun
    | some dprops =>
      rw [hw] at hrun
      dsimp only at hrun
      obtain ⟨_, rfl⟩ := enqueueWriteBuffer_eq_some.mp hw
      cases hws : enqueueWriteBuffer (cbBuffer world.w world.h) world.state with
      | none => rw [hws] at hrun; cases hrun
      | some buffState =>
        rw [hws] at hrun
        dsimp only at hrun
        obtain ⟨hsle, rfl⟩ := enqueueWriteBuffer_eq_some.mp hws
        cases hloop : forRange n
            (fun _ s => stepV5 fl world.w world.h (stepInner world.alpha dt)
              (stepOuter world.alpha dt) dt
              (List.take (cbBuffer world.w world.h / 4) packed) s)
            { t := world.t,
              buffState := List.take (cbBuffer world.w world.h / 4) world.state,
              buffBuffer := List.map junk (List.range (cbBuffer world.w world.h / 4)) } with
        | none => rw [hloop] at hrun; cases hrun
        | some fin =>
          rw [hloop] at hrun
          dsimp only at hrun
          cases hr : enqueueReadBuffer (cbBuffer world.w world.h) fin.buffState world.state with
          | none => rw [hr] at hrun; cases hrun
          | some st =>
            rw [hr] at hrun
            dsimp only at hrun
            cases hrun
            obtain ⟨_, rfl⟩ := enqueueReadBuffer_eq_some.mp hr
            have hc := cbBuffer_div_le world.w world.h
            have hclt := cbBuffer_div_lt world.w world.h
            have key : ∀ P : Nat → List F → F → Prop,
                P 0 (world.state.take (world.w * world.h)) world.t →
                (∀ k d t e, k < n → P k d t →
                  V5Next fl world.w world.h (stepInner world.alpha dt)
                    (stepOuter world.alpha dt)
                    (packed.take (world.w * world.h)) d e → P (k + 1) e (t + dt)) →
                (fin.buffBuffer.length = cbBuffer world.w world.h / 4 ∧
                  fin.buffState.length = cbBuffer world.w world.h / 4 ∧
                  (0 < n → 4 * (world.w * world.h) < 4294967296) ∧
                  (n = 0 → fin.buffState
                      = List.take (cbBuffer world.w world.h / 4) world.state ∧
                    fin.t = world.t) ∧
                  (cbBuffer world.w world.h / 4 = world.w * world.h →
                    P n fin.buffState fin.t)) := by
              intro P h0 hstep
              refine forRange_invariant
                (fun k (s : V5Loop F) =>
                  s.buffBuffer.length = cbBuffer world.w world.h / 4 ∧
                  s.buffState.length = cbBuffer world.w world.h / 4 ∧
                  (0 < k → 4 * (world.w * world.h) < 4294967296) ∧
                  (k = 0 → s.buffState
                      = List.take (cbBuffer world.w world.h / 4) world.state ∧
                    s.t = world.t) ∧
                  (cbBuffer world.w world.h / 4 = world.w * world.h →
                    P k s.buffState s.t))
                n _ _ fin ?_ ?_ hloop
              · refine ⟨by simp, ?_, fun h => absurd h (Nat.lt_irrefl 0),
                  fun _ => ⟨rfl, rfl⟩, ?_⟩
                · rw [List.length_take]; omega
                · intro hcN
                  rw [hcN]
                  exact h0
              · intro k a b hk ⟨hbb, hbs, _, _, hP⟩ hab
                obtain ⟨hN, hl', hbuf', ht', hval, _⟩ :=
                  stepV5_spec fl world.w world.h _ _ dt _ a b (by omega) hab
                rw [hbb] at hN hl'
                obtain ⟨hsz, hcb, _⟩ := cbBuffer_of_le world.w world.h hN
                refine ⟨by rw [hbuf']; exact hbs, hl', fun _ => hsz, fun h => by omega, ?_⟩
                intro _
                rw [ht']
                apply hstep k _ _ _ hk (hP hcb)
                refine ⟨hsz, by omega, by omega, ?_⟩
                intro i hi
                rw [hcb] at hval
                exact hval i hi
            obtain ⟨_, hfs, hnpos, hn0, _⟩ := key (fun _ _ _ => True) trivial
              (fun _ _ _ _ _ _ _ => trivial)
            have hst : (List.take (cbBuffer world.w world.h / 4) fin.buffState
                ++ List.drop (cbBuffer world.w world.h / 4) world.state).length
                = world.state.length := by
              rw [List.length_append, List.length_take, List.length_drop]
              omega
            have htk : List.take (cbBuffer world.w world.h / 4) fin.buffState = fin.buffState :=
              List.take_of_length_le (by omega)
            refine ⟨packed, rfl, ⟨rfl, rfl, rfl, rfl⟩, hst, ?_, ?_, ?_, ?_⟩
            · intro h0
              obtain ⟨h1, h2⟩ := hn0 h0
              rw [h1, h2, List.take_take, Nat.min_self, List.take_append_drop]
            · intro hn
              have hsz := hnpos hn
              obtain ⟨hcb, hcb4⟩ := cbBuffer_of_lt world.w world.h hsz
              rw [hcb4] at hsle
              exact ⟨hsz, by omega⟩
            · intro j hj
              dsimp only
              rw [htk, List.getElem?_append_right (by omega), List.getElem?_drop, hfs]
              congr 1
              omega
            · intro P h0 hstep
              dsimp only
              rcases Nat.eq_zero_or_pos n with hn | hn
              · obtain ⟨h1, h2⟩ := hn0 hn
                rw [h1, h2, List.take_take, Nat.min_self, List.take_append_drop]
                subst hn
                exact h0
              · have hsz := hnpos hn
                obtain ⟨hcb, _⟩ := cbBuffer_of_lt world.w world.h hsz
                have := (key P h0 hstep).2.2.2.2 hcb
                rw [htk, List.take_left' (by omega)]
                exact this

end RunFacts

/-! ## Both orchestrators return on valid grids -/

theorem boundaryMarked_take {fl : cell_flags_t} {w h : Nat} {properties : List Nat}
    (hb : boundaryMarked fl w h properties) :
    boundaryMarked fl w h (properties.take (w * h)) := by
  intro x hx y hy hbd
  obtain ⟨p, hp, hm⟩ := hb x hx y hy hbd
  exact ⟨p, by rw [List.getElem?_take_of_lt (flat_lt hx hy)]; exact hp, hm⟩

section Totality

variable {F : Type} [Add F] [Sub F] [Mul F] [Div F] [Zero F] [One F] [OfNat F 4]
  [LT F] [DecidableRel (fun a b : F => a < b)]

/-- On a valid grid of fewer than `2 ^ 30` cells `StepWorldV3OpenCL` returns. -/
theorem StepWorldV3OpenCL_total (fl : cell_flags_t) (junk : Nat → F) (world : world_t F)
    (dt : F) (n : Nat) (hwf : wellFormed fl world)
    (hsz : 4 * (world.w * world.h) < 4294967296) :
    ∃ world', StepWorldV3OpenCL fl junk world dt n = some world' := by
  obtain ⟨hsl, hpl, hb⟩ := hwf
  obtain ⟨hcb, hcb4⟩ := cbBuffer_of_lt world.w world.h hsz
  have hmod : (world.w * world.h) % 4294967296 = world.w * world.h :=
    Nat.mod_eq_of_lt (by omega)
  unfold StepWorldV3OpenCL
  dsimp only
  have hw : enqueueWriteBuffer (cbBuffer world.w world.h) world.properties
      = some (world.properties.take (world.w * world.h)) := by
    rw [enqueueWriteBuffer_eq_some, hcb, hcb4]
    exact ⟨by omega, rfl⟩
  rw [hw]
  dsimp only
  obtain ⟨fin, hfin, _⟩ := forRange_total
    (fun _ (s : V3Loop F) => s.buffBuffer.length = world.w * world.h ∧
      world.w * world.h ≤ s.world.state.length ∧ world.w * world.h ≤ s.buffer.length)
    n (fun _ s => stepV3 fl world.w world.h (cbBuffer world.w world.h)
      (stepInner world.alpha dt) (stepOuter world.alpha dt) dt
      (world.properties.take (world.w * world.h)) s)
    { world := world, buffer := List.replicate ((world.w * world.h) % 4294967296) 0,
      buffBuffer := (List.range (cbBuffer world.w world.h / 4)).map junk }
    ⟨by simp [hcb], by dsimp only; omega, by simp [hmod]⟩
    (by
      intro k a _ ⟨h1, h2, h3⟩
      have hv : ∀ i, i < world.w * world.h →
          (cellValue fl world.w (stepInner world.alpha dt) (stepOuter world.alpha dt)
            (a.world.state.take (world.w * world.h))
            (world.properties.take (world.w * world.h)) i).isSome = true := by
        intro i hi
        apply cellValue_isSome fl world.w world.h _ _ _ _ i (by omega)
          (boundaryMarked_take hb) _ _ hi
        · rw [List.length_take]; omega
        · rw [List.length_take]; omega
      obtain ⟨b, hb'⟩ := stepV3_total fl world.w world.h (stepInner world.alpha dt)
        (stepOuter world.alpha dt) dt _ a hsz h1 h2 h3 hv
      obtain ⟨_, _, _, hbb, hbuf, hsl', _⟩ :=
        stepV3_spec fl world.w world.h _ _ dt _ a b (by rw [h1, hcb]) hb'
      exact ⟨b, hb', by rw [hbb, hcb], by rw [hsl']; exact h3, by rw [hbuf]; exact h2⟩)
  rw [hfin]
  exact ⟨_, rfl⟩

omit [Sub F] [OfNat F 4] in
theorem cellValuePacked_isSome (fl : cell_flags_t) (w h : Nat) (inner outer : F)
    (d : List F) (properties packed : List Nat) (i : Nat)
    (hN : w * h ≤ 4294967296) (hb : boundaryMarked fl w h properties)
    (hpk : PACKING fl w h properties = some packed)
    (hd : w * h ≤ d.length) (hi : i < w * h) :
    (cellValuePacked fl w inner outer d (packed.take (w * h)) i).isSome = true := by
  obtain ⟨_, hlen, hval⟩ := PACKING_spec fl w h properties packed hpk
  obtain ⟨hq, hqs⟩ := hval i hi
  obtain ⟨q, hq2⟩ := Option.isSome_iff_exists.mp hqs
  obtain ⟨s, hsi⟩ : ∃ s, d[i]? = some s :=
    ⟨_, List.getElem?_eq_getElem (Nat.lt_of_lt_of_le hi hd)⟩
  unfold cellValuePacked
  rw [List.getElem?_take_of_lt hi, hq, hq2]
  dsimp only
  by_cases hm : isFixedOrInsulator fl q
  · rw [if_pos hm, hsi]; rfl
  · rw [if_neg hm]
    -- the original word is unmarked as well, so the cell is interior
    unfold packWord at hq2
    cases hp : properties[i]? with
    | none => rw [hp] at hq2; cases hq2
    | some p =>
      rw [hp] at hq2
      dsimp only at hq2
      have hpm : ¬ isFixedOrInsulator fl p := by
        intro hpm
        have hc : ¬ (¬ (p &&& fl.Cell_Fixed ≠ 0) ∧ ¬ (p &&& fl.Cell_Insulator ≠ 0)) := by
          unfold isFixedOrInsulator at hpm
          tauto
        rw [if_neg hc] at hq2
        cases hq2
        exact hm hpm
      obtain ⟨ja, jb, jl, jr⟩ := neighbours_lt hN hb hi hp hpm
      unfold accumulatePacked
      rw [hsi]
      dsimp only
      obtain ⟨r1, h1⟩ := contributePacked_isSome outer d q 4 (indexAbove i w)
        (inner, inner * s) (Nat.lt_of_lt_of_le ja hd)
      obtain ⟨r2, h2⟩ := contributePacked_isSome outer d q 8 (indexBelow i w) r1
        (Nat.lt_of_lt_of_le jb hd)
      obtain ⟨r3, h3⟩ := contributePacked_isSome outer d q 16 (indexLeft i) r2
        (Nat.lt_of_lt_of_le jl hd)
      obtain ⟨r4, h4⟩ := contributePacked_isSome outer d q 32 (indexRight i) r3
        (Nat.lt_of_lt_of_le jr hd)
      simp only [h1, h2, h3, h4, Option.some_bind, Option.map_some', Option.isSome_some]

/-- On a valid grid of fewer than `2 ^ 30` cells `StepWorldV5PackedProperties`
returns. -/
theorem StepWorldV5PackedProperties_total (fl : cell_flags_t) (junk : Nat → F)
    (world : world_t F) (dt : F) (n : Nat) (hwf : wellFormed fl world)
    (hsz : 4 * (world.w * world.h) < 4294967296) :
    ∃ world', StepWorldV5PackedProperties fl junk world dt n = some world' := by
  obtain ⟨hsl, hpl, hb⟩ := hwf
  obtain ⟨hcb, hcb4⟩ := cbBuffer_of_lt world.w world.h hsz
  obtain ⟨packed, hpk⟩ := PACKING_total fl world.w world.h world.properties (by omega)
    (fun i hi => packWord_isSome fl world.w world.h world.properties i (by omega) hb
      (by omega) hi)
  obtain ⟨_, hlen, _⟩ := PACKING_spec fl world.w world.h world.properties packed hpk
  unfold StepWorldV5PackedProperties
  dsimp only
  rw [hpk]
  dsimp only
  have hw : enqueueWriteBuffer (cbBuffer world.w world.h) packed
      = some (packed.take (world.w * world.h)) := by
    rw [enqueueWriteBuffer_eq_some, hcb, hcb4]
    exact ⟨by omega, rfl⟩
  have hws : enqueueWriteBuffer (cbBuffer world.w world.h) world.state
      = some (world.state.take (world.w * world.h)) := by
    rw [enqueueWriteBuffer_eq_some, hcb, hcb4]
    exact ⟨by omega, rfl⟩
  rw [hw]
  dsimp only
  rw [hws]
  dsimp only
  obtain ⟨fin, hfin, hf1, hf2⟩ := forRange_total
    (fun _ (s : V5Loop F) => s.buffBuffer.length = world.w * world.h ∧
      s.buffState.length = world.w * world.h)
    n (fun _ s => stepV5 fl world.w world.h (stepInner world.alpha dt)
      (stepOuter world.alpha dt) dt (packed.take (world.w * world.h)) s)
    { t := world.t, buffState := world.state.take (world.w * world.h),
      buffBuffer := (List.range (cbBuffer world.w world.h / 4)).map junk }
    ⟨by simp [hcb], by simp [hsl]⟩
    (by
      intro k a _ ⟨h1, h2⟩
      have hv : ∀ i, i < world.w * world.h →
          (cellValuePacked fl world.w (stepInner world.alpha dt) (stepOuter world.alpha dt)
            a.buffState (packed.take (world.w * world.h)) i).isSome = true :=
        fun i hi => cellValuePacked_isSome fl world.w world.h _ _ _ _ packed i (by omega) hb
          hpk (by omega) hi
      obtain ⟨b, hb'⟩ := stepV5_total fl world.w world.h (stepInner world.alpha dt)
        (stepOuter world.alpha dt) dt _ a (by omega) (by omega) hv
      obtain ⟨_, hl', hbuf', _⟩ :=
        stepV5_spec fl world.w world.h _ _ dt _ a b (by omega) hb'
      exact ⟨b, hb', by rw [hbuf']; exact h2, by rw [hl']; exact h1⟩)
  rw [hfin]
  dsimp only
  have hr : enqueueReadBuffer (cbBuffer world.w world.h) fin.buffState world.state
      = some (fin.buffState.take (cbBuffer world.w world.h / 4)
          ++ world.state.drop (cbBuffer world.w world.h / 4)) := by
    rw [enqueueReadBuffer_eq_some, hcb4]
    exact ⟨⟨by omega, by omega⟩, rfl⟩
  rw [hr]
  exact ⟨_, rfl⟩

end Totality

/-! ## Kernel-level facts -/

section KernelValue

variable {F : Type} [Add F] [Mul F] [Div F] [Zero F] [One F]
  [LT F] [DecidableRel (fun a b : F => a < b)]

theorem cellValue_fixed (fl : cell_flags_t) (w : Nat) (inner outer : F) (st : List F)
    (props : List Nat) (i p : Nat) (hp : props[i]? = some p) (hm : isFixedOrInsulator fl p) :
    cellValue fl w inner outer st props i = st[i]? := by
  unfold cellValue
  rw [hp]
  dsimp only
  rw [if_pos hm]

theorem cellValue_free (fl : cell_flags_t) (w : Nat) (inner outer : F) (st : List F)
    (props : List Nat) (i p : Nat) (hp : props[i]? = some p) (hm : ¬ isFixedOrInsulator fl p) :
    cellValue fl w inner outer st props i
      = (accumulate fl w inner outer st props i).map
          (fun ca => stdMin 1 (stdMax 0 (ca.2 / ca.1))) := by
  unfold cellValue
  rw [hp]
  dsimp only
  rw [if_neg hm]

omit [Div F] [Zero F] [One F] [LT F] [DecidableRel (fun a b : F => a < b)] in
theorem contribute_congr (fl : cell_flags_t) (outer : F) (st1 st2 : List F)
    (props : List Nat) (j : Nat) (ca : F × F)
    (h : ∀ pj, props[j]? = some pj → lacksInsulator fl pj → st1[j]? = st2[j]?) :
    contribute fl outer st1 props j ca = contribute fl outer st2 props j ca := by
  unfold contribute
  cases hp : props[j]? with
  | none => rfl
  | some pj =>
    dsimp only
    by_cases hl : lacksInsulator fl pj
    · rw [if_pos hl, if_pos hl, h pj hp hl]
    · rw [if_neg hl, if_neg hl]

omit [Div F] [Zero F] [One F] [LT F] [DecidableRel (fun a b : F => a < b)] in
theorem accumulate_congr (fl : cell_flags_t) (w : Nat) (inner outer : F) (st1 st2 : List F)
    (props : List Nat) (index : Nat) (hown : st1[index]? = st2[index]?)
    (h : ∀ j, (j = indexAbove index w ∨ j = indexBelow index w ∨ j = indexLeft index ∨
        j = indexRight index) →
      ∀ pj, props[j]? = some pj → lacksInsulator fl pj → st1[j]? = st2[j]?) :
    accumulate fl w inner outer st1 props index
      = accumulate fl w inner outer st2 props index := by
  unfold accumulate
  rw [hown]
  cases st2[index]? with
  | none => rfl
  | some s =>
    dsimp only
    have e1 : ∀ ca, contribute fl outer st1 props (indexAbove index w) ca
        = contribute fl outer st2 props (indexAbove index w) ca :=
      fun ca => contribute_congr fl outer st1 st2 props _ ca (h _ (Or.inl rfl))
    have e2 : contribute fl outer st1 props (indexBelow index w)
        = contribute fl outer st2 props (indexBelow index w) :=
      funext fun ca => contribute_congr fl outer st1 st2 props _ ca (h _ (Or.inr (Or.inl rfl)))
    have e3 : contribute fl outer st1 props (indexLeft index)
        = contribute fl outer st2 props (indexLeft index) :=
      funext fun ca =>
        contribute_congr fl outer st1 st2 props _ ca (h _ (Or.inr (Or.inr (Or.inl rfl))))
    have e4 : contribute fl outer st1 props (indexRight index)
        = contribute fl outer st2 props (indexRight index) :=
      funext fun ca =>
        contribute_congr fl outer st1 st2 props _ ca (h _ (Or.inr (Or.inr (Or.inr rfl))))
    rw [e1, e2, e3, e4]

end KernelValue

/-- The clamp `std::min(1.0f, std::max(0.0f, r))` returns 1, or 0, or `r`
itself when `0 < r < 1`, whatever the comparison `<` is (so also for a
floating-point comparison that is false on NaN). -/
theorem clamp_cases {F : Type} [Zero F] [One F] [LT F] [DecidableRel (fun a b : F => a < b)]
    (r : F) :
    stdMin 1 (stdMax 0 r) = 1 ∨ stdMin 1 (stdMax 0 r) = 0 ∨
      (stdMin 1 (stdMax 0 r) = r ∧ 0 < r ∧ r < 1) := by
  unfold stdMin stdMax
  by_cases h0 : (0 : F) < r
  · rw [if_pos h0]
    by_cases h1 : r < 1
    · rw [if_pos h1]; exact Or.inr (Or.inr ⟨rfl, h0, h1⟩)
    · rw [if_neg h1]; exact Or.inl rfl
  · rw [if_neg h0]
    by_cases h1 : (0 : F) < 1
    · rw [if_pos h1]; exact Or.inr (Or.inl rfl)
    · rw [if_neg h1]; exact Or.inl rfl

section Exact

variable {F : Type} [LinearOrderedField F]

theorem clamp_mem (r : F) : 0 ≤ stdMin 1 (stdMax 0 r) ∧ stdMin 1 (stdMax 0 r) ≤ 1 := by
  rcases clamp_cases r with h | h | ⟨h, h0, h1⟩
  · rw [h]; exact ⟨zero_le_one, le_refl 1⟩
  · rw [h]; exact ⟨le_refl 0, zero_le_one⟩
  · rw [h]; exact ⟨le_of_lt h0, le_of_lt h1⟩

theorem clamp_id (r : F) (h0 : 0 ≤ r) (h1 : r ≤ 1) : stdMin 1 (stdMax 0 r) = r := by
  unfold stdMin stdMax
  split_ifs <;> linarith

/-- The weights of a step with `0 ≤ alpha * dt < 4`: `outer ≥ 0` and
`inner > 0`. -/
theorem step_weights (alpha dt : F) (h0 : 0 ≤ alpha * dt) (h4 : alpha * dt < 4) :
    0 ≤ stepOuter alpha dt ∧ 0 < stepInner alpha dt := by
  unfold stepInner stepOuter
  constructor
  · exact h0
  · linarith

/-- The invariant of the accumulation: `contrib` is positive and `acc` lies
between `lo * contrib` and `hi * contrib`. -/
theorem contribute_bounds (fl : cell_flags_t) (outer : F) (st : List F) (props : List Nat)
    (j : Nat) (ca r : F × F) (lo hi : F) (houter : 0 ≤ outer)
    (hnb : ∀ pj sj, props[j]? = some pj → lacksInsulator fl pj → st[j]? = some sj →
      lo ≤ sj ∧ sj ≤ hi)
    (hr : contribute fl outer st props j ca = some r)
    (hca : 0 < ca.1 ∧ lo * ca.1 ≤ ca.2 ∧ ca.2 ≤ hi * ca.1) :
    0 < r.1 ∧ lo * r.1 ≤ r.2 ∧ r.2 ≤ hi * r.1 := by
  unfold contribute at hr
  cases hp : props[j]? with
  | none => rw [hp] at hr; cases hr
  | some pj =>
    rw [hp] at hr
    dsimp only at hr
    by_cases hl : lacksInsulator fl pj
    · rw [if_pos hl] at hr
      cases hs : st[j]? with
      | none => rw [hs] at hr; cases hr
      | some sj =>
        rw [hs] at hr
        cases hr
        obtain ⟨h1, h2⟩ := hnb pj sj hp hl hs
        obtain ⟨hc, ha1, ha2⟩ := hca
        dsimp only
        have m1 : outer * lo ≤ outer * sj := mul_le_mul_of_nonneg_left h1 houter
        have m2 : outer * sj ≤ outer * hi := mul_le_mul_of_nonneg_left h2 houter
        refine ⟨by linarith, ?_, ?_⟩
        · nlinarith
        · nlinarith
    · rw [if_neg hl] at hr
      cases hr
      exact hca

end Exact

/-! ## The packed neighbour bits -/

theorem and_of_subset_sixty (p b : Nat) (hp : p &&& 60 = 0) (hb : 60 &&& b = b) :
    p &&& b = 0 := by
  rw [← hb, ← Nat.and_assoc, hp, Nat.zero_and]

theorem xor_mask_and (p m f : Nat) (hm : m &&& 60 = m) (hf : 60 &&& f = 0) :
    (p ^^^ m) &&& f = p &&& f := by
  have h0 : m &&& f = 0 := by rw [← hm, Nat.and_assoc, hf, Nat.and_zero]
  rw [Nat.and_xor_distrib_right, h0, Nat.xor_zero]

theorem xor_mask_bit (p m b : Nat) (hp : p &&& 60 = 0) (hb : 60 &&& b = b) :
    (p ^^^ m) &&& b = m &&& b := by
  rw [Nat.and_xor_distrib_right, and_of_subset_sixty p b hp hb, Nat.zero_xor]

theorem packBit_eq_some (fl : cell_flags_t) (properties : List Nat) (j bit q r : Nat)
    (h : packBit fl properties j bit q = some r) :
    ∃ pj, properties[j]? = some pj ∧
      r = q ^^^ (if lacksInsulator fl pj then bit else 0) := by
  unfold packBit at h
  cases hp : properties[j]? with
  | none => rw [hp] at h; cases h
  | some pj =>
    rw [hp] at h
    dsimp only at h
    refine ⟨pj, rfl, ?_⟩
    by_cases hl : lacksInsulator fl pj
    · rw [if_pos hl] at h ⊢
      cases h
      rfl
    · rw [if_neg hl] at h ⊢
      cases h
      rw [Nat.xor_zero]

/-- The word the PACKING loop leaves for an unmarked cell: the original word
with one toggled bit for each neighbour that lacks `Cell_Insulator`. -/
theorem packWord_unmarked (fl : cell_flags_t) (w : Nat) (properties : List Nat) (i p q : Nat)
    (hp : properties[i]? = some p) (hfree : ¬ isFixedOrInsulator fl p)
    (hq : packWord fl w properties i = some q) :
    ∃ pa pb pl pr, properties[indexAbove i w]? = some pa ∧
      properties[indexBelow i w]? = some pb ∧
      properties[indexLeft i]? = some pl ∧
      properties[indexRight i]? = some pr ∧
      q = p ^^^ ((if lacksInsulator fl pa then 4 else 0) ^^^
            (if lacksInsulator fl pb then 8 else 0) ^^^
            (if lacksInsulator fl pl then 16 else 0) ^^^
            (if lacksInsulator fl pr then 32 else 0)) := by
  unfold packWord at hq
  rw [hp] at hq
  dsimp only at hq
  have hc : ¬ (p &&& fl.Cell_Fixed ≠ 0) ∧ ¬ (p &&& fl.Cell_Insulator ≠ 0) := by
    unfold isFixedOrInsulator at hfree
    tauto
  rw [if_pos hc] at hq
  simp only [Option.bind_eq_some] at hq
  obtain ⟨r3, ⟨r2, ⟨r1, h1, h2⟩, h3⟩, h4⟩ := hq
  obtain ⟨pa, hpa, rfl⟩ := packBit_eq_some fl properties _ _ _ _ h1
  obtain ⟨pb, hpb, rfl⟩ := packBit_eq_some fl properties _ _ _ _ h2
  obtain ⟨pl, hpl, rfl⟩ := packBit_eq_some fl properties _ _ _ _ h3
  obtain ⟨pr, hpr, rfl⟩ := packBit_eq_some fl properties _ _ _ _ h4
  exact ⟨pa, pb, pl, pr, hpa, hpb, hpl, hpr, by simp only [Nat.xor_assoc]⟩

theorem packWord_marked (fl : cell_flags_t) (w : Nat) (properties : List Nat) (i p : Nat)
    (hp : properties[i]? = some p) (hm : isFixedOrInsulator fl p) :
    packWord fl w properties i = some p := by
  unfold packWord
  rw [hp]
  dsimp only
  have hc : ¬ (¬ (p &&& fl.Cell_Fixed ≠ 0) ∧ ¬ (p &&& fl.Cell_Insulator ≠ 0)) := by
    unfold isFixedOrInsulator at hm
    tauto
  rw [if_neg hc]

/-- The mask toggled by the PACKING loop lies within the bits 4, 8, 16, 32, and
each of these bits of the mask tells whether the corresponding test held. -/
theorem mask_bits (ca cb cl cr : Prop) [Decidable ca] [Decidable cb] [Decidable cl]
    [Decidable cr] :
    ((if ca then 4 else 0) ^^^ (if cb then 8 else 0) ^^^ (if cl then 16 else 0) ^^^
        (if cr then 32 else 0)) &&& 60
      = ((if ca then 4 else 0) ^^^ (if cb then 8 else 0) ^^^ (if cl then 16 else 0) ^^^
        (if cr then 32 else 0)) ∧
    ((((if ca then 4 else 0) ^^^ (if cb then 8 else 0) ^^^ (if cl then 16 else 0) ^^^
        (if cr then 32 else 0)) &&& 4 ≠ 0) ↔ ca) ∧
    ((((if ca then 4 else 0) ^^^ (if cb then 8 else 0) ^^^ (if cl then 16 else 0) ^^^
        (if cr then 32 else 0)) &&& 8 ≠ 0) ↔ cb) ∧
    ((((if ca then 4 else 0) ^^^ (if cb then 8 else 0) ^^^ (if cl then 16 else 0) ^^^
        (if cr then 32 else 0)) &&& 16 ≠ 0) ↔ cl) ∧
    ((((if ca then 4 else 0) ^^^ (if cb then 8 else 0) ^^^ (if cl then 16 else 0) ^^^
        (if cr then 32 else 0)) &&& 32 ≠ 0) ↔ cr) := by
  by_cases ha : ca <;> by_cases hb : cb <;> by_cases hl : cl <;> by_cases hr : cr <;>
    simp only [ha, hb, hl, hr, if_true, if_false, iff_true, iff_false] <;> decide

/-! ## Runs of the read-back-every-step orchestrator -/

section Invariance

variable {F : Type} [Add F] [Sub F] [Mul F] [Div F] [Zero F] [One F] [OfNat F 4]
  [LT F] [DecidableRel (fun a b : F => a < b)]

/-- A marked cell keeps its state through a run of `StepWorldV3OpenCL`. -/
theorem StepWorldV3OpenCL_marked (fl : cell_flags_t) (junk : Nat → F)
    (world world' : world_t F) (dt : F) (n : Nat)
    (hrun : StepWorldV3OpenCL fl junk world dt n = some world')
    (i : Nat) (hi : i < world.w * world.h) (hm : isMarkedAt fl world.properties i) :
    world'.state[i]? = world.state[i]? := by
  obtain ⟨_, hn0, hnpos, hP⟩ := StepWorldV3OpenCL_run fl junk world world' dt n hrun
  have key := hP
    (fun _ d _ => ∀ j, j < world.w * world.h → isMarkedAt fl world.properties j →
      d[j]? = world.state[j]?)
    (fun j hj _ => List.getElem?_take_of_lt hj)
    (by
      intro k d t e _ hd ⟨_, _, _, hval⟩ j hj hmj
      obtain ⟨p, hp, hfix⟩ := hmj
      rw [(hval j hj).1, cellValue_fixed fl _ _ _ _ _ j p
        (by rw [List.getElem?_take_of_lt hj]; exact hp) hfix]
      exact hd j hj ⟨p, hp, hfix⟩)
  have := key i hi hm
  rwa [List.getElem?_take_of_lt hi] at this

end Invariance

section ExactRuns

variable {F : Type} [LinearOrderedField F]

/-- After at least one step every unmarked cell lies in `[0, 1]`. -/
theorem StepWorldV3OpenCL_clamped (fl : cell_flags_t) (junk : Nat → F)
    (world world' : world_t F) (dt : F) (n : Nat) (hn : 0 < n)
    (hrun : StepWorldV3OpenCL fl junk world dt n = some world')
    (i : Nat) (hi : i < world.w * world.h) (hm : ¬ isMarkedAt fl world.properties i) :
    ∃ v, world'.state[i]? = some v ∧ 0 ≤ v ∧ v ≤ 1 := by
  obtain ⟨_, _, hnpos, hP⟩ := StepWorldV3OpenCL_run fl junk world world' dt n hrun
  obtain ⟨_, _, hpl, _, _⟩ := hnpos hn
  obtain ⟨p, hp⟩ : ∃ p, world.properties[i]? = some p :=
    ⟨_, List.getElem?_eq_getElem (Nat.lt_of_lt_of_le hi hpl)⟩
  have hfree : ¬ isFixedOrInsulator fl p := fun hfix => hm ⟨p, hp, hfix⟩
  have key := hP
    (fun k d _ => 0 < k → ∃ v, d[i]? = some v ∧ 0 ≤ v ∧ v ≤ 1)
    (fun h => absurd h (Nat.lt_irrefl 0))
    (by
      intro k d t e _ _ ⟨_, _, _, hval⟩ _
      obtain ⟨hv, hs⟩ := hval i hi
      rw [cellValue_free fl _ _ _ _ _ i p
        (by rw [List.getElem?_take_of_lt hi]; exact hp) hfree] at hv hs
      obtain ⟨ca, hca⟩ := Option.isSome_iff_exists.mp
        (by rw [Option.isSome_map'] at hs; exact hs)
      rw [hca, Option.map_some'] at hv
      exact ⟨_, hv, clamp_mem _⟩)
  have := key hn
  rwa [List.getElem?_take_of_lt hi] at this

end ExactRuns

/-! ## Evaluations on the concrete grids -/

theorem insulatedWorld_two_steps (junk : Nat → ℚ) :
    StepWorldV3OpenCL heatFlags junk insulatedWorld (1 / 4) 2
      = some { insulatedWorld with
          state := [0, 0, 0, 0, 0, 25 / 162, 3 / 4, 0, 0, 0, 0, 0], t := 1 / 2 } := by
  simp [StepWorldV3OpenCL, insulatedWorld, heatFlags, forRange, stepV3, enqueueWriteBuffer,
    enqueueReadBuffer, cbBuffer, enqueueNDRangeKernel, kernel_xy, cellIndex, storeAt,
    accumulate, contribute, indexAbove, indexBelow, indexLeft, indexRight,
    isFixedOrInsulator, lacksInsulator, stepInner, stepOuter, stdMin, stdMax,
    List.range_succ]
  norm_num

theorem insulatedWorld_one_step (junk : Nat → ℚ) :
    StepWorldV3OpenCL heatFlags junk insulatedWorld (1 / 4) 1
      = some { insulatedWorld with
          state := [0, 0, 0, 0, 0, 5 / 18, 3 / 4, 0, 0, 0, 0, 0], t := 1 / 4 } := by
  simp [StepWorldV3OpenCL, insulatedWorld, heatFlags, forRange, stepV3, enqueueWriteBuffer,
    enqueueReadBuffer, cbBuffer, enqueueNDRangeKernel, kernel_xy, cellIndex, storeAt,
    accumulate, contribute, indexAbove, indexBelow, indexLeft, indexRight,
    isFixedOrInsulator, lacksInsulator, stepInner, stepOuter, stdMin, stdMax,
    List.range_succ]
  norm_num

theorem hotWorld_one_step (junk : Nat → ℚ) :
    StepWorldV3OpenCL heatFlags junk hotWorld (1 / 4) 1
      = some { hotWorld with t := 1 / 4 } := by
  simp [StepWorldV3OpenCL, hotWorld, heatFlags, forRange, stepV3, enqueueWriteBuffer,
    enqueueReadBuffer, cbBuffer, enqueueNDRangeKernel, kernel_xy, cellIndex, storeAt,
    isFixedOrInsulator, stepInner, stepOuter, List.range_succ]

theorem insulatedWorld_packed_three_steps (junk : Nat → ℚ) :
    StepWorldV5PackedProperties heatFlags junk insulatedWorld (1 / 4) 3
      = some { insulatedWorld with
          state := [0, 0, 0, 0, 0, 125 / 1458, 3 / 4, 0, 0, 0, 0, 0], t := 3 / 4 } := by
  simp [StepWorldV5PackedProperties, PACKING, packCell, packNeighbour, insulatedWorld, heatFlags,
    forRange, stepV5, enqueueWriteBuffer,
    enqueueReadBuffer, cbBuffer, enqueueNDRangeKernel, kernel_xy_packed, cellIndex, storeAt,
    accumulatePacked, contributePacked, indexAbove, indexBelow, indexLeft, indexRight,
    isFixedOrInsulator, lacksInsulator, stepInner, stepOuter, stdMin, stdMax,
    List.range_succ, (by decide : (28 : ℕ) &&& 2 = 0), (by decide : (28 : ℕ) &&& 32 = 0)]
  norm_num

/-! ## Claims about runs of `StepWorldV3OpenCL` -/

/-- C1. Fixed/Insulator invariance: for every grid, every `dt` and every step
count `n`, after `StepWorldV3OpenCL(world, dt, n)` every cell `i` of the grid
whose property word has `Cell_Fixed` or `Cell_Insulator` set holds exactly the
state value it held before the call; and the call does return on every valid
grid of fewer than `2 ^ 30` cells. -/
theorem fixed_insulator_invariance {F : Type} [Add F] [Sub F] [Mul F] [Div F] [Zero F]
    [One F] [OfNat F 4] [LT F] [DecidableRel (fun a b : F => a < b)]
    (fl : cell_flags_t) (junk : Nat → F) (world : world_t F) (dt : F) (n : Nat) :
    (∀ world', StepWorldV3OpenCL fl junk world dt n = some world' →
      ∀ i, i < world.w * world.h → isMarkedAt fl world.properties i →
        world'.state[i]? = world.state[i]?) ∧
    (wellFormed fl world → 4 * (world.w * world.h) < 4294967296 →
      ∃ world', StepWorldV3OpenCL fl junk world dt n = some world') :=
  ⟨fun world' hrun i hi hm => StepWorldV3OpenCL_marked fl junk world world' dt n hrun i hi hm,
    fun hwf hsz => StepWorldV3OpenCL_total fl junk world dt n hwf hsz⟩

/-- Witness for C1: two steps of the 4 × 3 grid leave its interior Insulator
cell (index 6) at 3/4. -/
theorem fixed_insulator_invariance_witness :
    StepWorldV3OpenCL heatFlags (fun _ => 0) insulatedWorld (1 / 4) 2
        = some { insulatedWorld with
            state := [0, 0, 0, 0, 0, 25 / 162, 3 / 4, 0, 0, 0, 0, 0], t := 1 / 2 } ∧
      (6 < insulatedWorld.w * insulatedWorld.h ∧
        isMarkedAt heatFlags insulatedWorld.properties 6) ∧
      ({ insulatedWorld with
          state := [0, 0, 0, 0, 0, 25 / 162, 3 / 4, 0, 0, 0, 0, 0], t := 1 / 2 } :
          world_t ℚ).state[6]? = insulatedWorld.state[6]? :=
  ⟨insulatedWorld_two_steps _, ⟨by decide, by decide⟩,
    (fixed_insulator_invariance heatFlags (fun _ => 0) insulatedWorld (1 / 4) 2).1 _
      (insulatedWorld_two_steps _) 6 (by decide) (by decide)⟩

/-- C4 (amended). Range invariance: for every grid, every `dt` and every
`n ≥ 1`, after `StepWorldV3OpenCL(world, dt, n)` every cell `i` of the grid
satisfies `0 ≤ state[i] ≤ 1`, provided that, if the cell is Fixed or Insulator,
its initial value lies in `[0, 1]` (such a cell keeps its initial value; every
other cell is clamped); and the call does return on every valid grid of fewer
than `2 ^ 30` cells. -/
theorem range_invariance {F : Type} [LinearOrderedField F]
    (fl : cell_flags_t) (junk : Nat → F) (world : world_t F) (dt : F) (n : Nat)
    (hn : 0 < n) :
    (∀ world', StepWorldV3OpenCL fl junk world dt n = some world' →
      ∀ i, i < world.w * world.h →
        (isMarkedAt fl world.properties i →
          ∃ v, world.state[i]? = some v ∧ 0 ≤ v ∧ v ≤ 1) →
        ∃ v, world'.state[i]? = some v ∧ 0 ≤ v ∧ v ≤ 1) ∧
    (wellFormed fl world → 4 * (world.w * world.h) < 4294967296 →
      ∃ world', StepWorldV3OpenCL fl junk world dt n = some world') := by
  refine ⟨?_, fun hwf hsz => StepWorldV3OpenCL_total fl junk world dt n hwf hsz⟩
  intro world' hrun i hi hsrc
  by_cases hm : isMarkedAt fl world.properties i
  · rw [StepWorldV3OpenCL_marked fl junk world world' dt n hrun i hi hm]
    exact hsrc hm
  · exact StepWorldV3OpenCL_clamped fl junk world world' dt n hn hrun i hi hm

/-- Witness for C4: after one step of the 4 × 3 grid the unmarked cell 5 holds
5/18, a value in `[0, 1]`. -/
theorem range_invariance_witness :
    StepWorldV3OpenCL heatFlags (fun _ => 0) insulatedWorld (1 / 4) 1
        = some { insulatedWorld with
            state := [0, 0, 0, 0, 0, 5 / 18, 3 / 4, 0, 0, 0, 0, 0], t := 1 / 4 } ∧
    ∃ v, ({ insulatedWorld with
          state := [0, 0, 0, 0, 0, 5 / 18, 3 / 4, 0, 0, 0, 0, 0], t := 1 / 4 } :
          world_t ℚ).state[5]? = some v ∧ 0 ≤ v ∧ v ≤ 1 :=
  ⟨insulatedWorld_one_step _,
    (range_invariance heatFlags (fun _ => 0) insulatedWorld (1 / 4) 1 (by decide)).1 _
      (insulatedWorld_one_step _) 5 (by decide) (by decide)⟩

/-- Counterexample to C4 as stated: `hotWorld` is a valid grid whose property
words carry only the Fixed bit; its centre `(1, 1)` is a non-boundary cell, and
after one step it still holds 2, which is not in `[0, 1]`. -/
theorem range_invariance_counterexample :
    wellFormed heatFlags hotWorld ∧
      (∀ p ∈ hotWorld.properties, p = heatFlags.Cell_Fixed) ∧
      StepWorldV3OpenCL heatFlags (fun _ => 0) hotWorld (1 / 4) 1
        = some { hotWorld with t := 1 / 4 } ∧
      ({ hotWorld with t := 1 / 4 } : world_t ℚ).state[1 * 3 + 1]? = some 2 ∧
      ¬ ((0 : ℚ) ≤ 2 ∧ (2 : ℚ) ≤ 1) :=
  ⟨by decide, by decide, hotWorld_one_step _, rfl, by norm_num⟩

section Steady

variable {F : Type} [LinearOrderedField F]

end Steady

/-- C6. Insulator exclusion: for a cell that is neither Fixed nor Insulator,
two previous-state arrays that agree everywhere except at neighbours of the
cell marked `Cell_Insulator` make `kernel_xy` produce the same buffer (the same
value written to `buffer[index]`), with the same `inner`, `outer` and
properties. -/
theorem insulator_exclusion {F : Type} [Add F] [Mul F] [Div F] [Zero F] [One F]
    [LT F] [DecidableRel (fun a b : F => a < b)]
    (fl : cell_flags_t) (x y w : Nat) (inner outer : F) (st1 st2 : List F)
    (props : List Nat) (buffer : List F) (p : Nat)
    (hp : props[cellIndex x y w]? = some p) (hfree : ¬ isFixedOrInsulator fl p)
    (hagree : ∀ j : Nat,
      ¬ ((j = indexAbove (cellIndex x y w) w ∨ j = indexBelow (cellIndex x y w) w ∨
            j = indexLeft (cellIndex x y w) ∨ j = indexRight (cellIndex x y w)) ∧
          ∃ pj, props[j]? = some pj ∧ ¬ lacksInsulator fl pj) →
      st1[j]? = st2[j]?) :
    kernel_xy fl x y w inner outer st1 props buffer
      = kernel_xy fl x y w inner outer st2 props buffer := by
  rw [kernel_xy_eq, kernel_xy_eq, cellValue_free fl w inner outer st1 props _ p hp hfree,
    cellValue_free fl w inner outer st2 props _ p hp hfree]
  have hown : st1[cellIndex x y w]? = st2[cellIndex x y w]? := by
    apply hagree
    rintro ⟨_, pj, hpj, hins⟩
    rw [hp] at hpj
    cases hpj
    apply hins
    unfold lacksInsulator
    unfold isFixedOrInsulator at hfree
    by_contra hne
    exact hfree (Or.inr hne)
  rw [accumulate_congr fl w inner outer st1 st2 props _ hown]
  intro j hj pj hpj hl
  apply hagree
  rintro ⟨_, qj, hqj, hins⟩
  rw [hpj] at hqj
  cases hqj
  exact hins hl

theorem insulatedWorld_kernel :
    kernel_xy heatFlags 1 1 4 (15 / 16 : ℚ) (1 / 4) insulatedWorld.state
        insulatedWorld.properties (List.replicate 12 0)
      = some [0, 0, 0, 0, 0, 5 / 18, 0, 0, 0, 0, 0, 0] := by
  simp [kernel_xy, accumulate, contribute, insulatedWorld, heatFlags, cellIndex, storeAt,
    indexAbove, indexBelow, indexLeft, indexRight, isFixedOrInsulator, lacksInsulator,
    stdMin, stdMax, List.replicate]
  norm_num

/-- Witness for C6: in the 4 × 3 grid the unmarked cell `(1, 1)` has the
Insulator cell 6 as right neighbour; changing the state stored there from 3/4
to 1/3 does not change what `kernel_xy` writes, the value 5/18. -/
theorem insulator_exclusion_witness :
    kernel_xy heatFlags 1 1 4 (15 / 16 : ℚ) (1 / 4) insulatedWorld.state
        insulatedWorld.properties (List.replicate 12 0)
      = some [0, 0, 0, 0, 0, 5 / 18, 0, 0, 0, 0, 0, 0] ∧
    insulatedWorld.state.set 6 (1 / 3) = [0, 0, 0, 0, 0, 1 / 2, 1 / 3, 0, 0, 0, 0, 0] ∧
    kernel_xy heatFlags 1 1 4 (15 / 16 : ℚ) (1 / 4) insulatedWorld.state
        insulatedWorld.properties (List.replicate 12 0)
      = kernel_xy heatFlags 1 1 4 (15 / 16 : ℚ) (1 / 4) (insulatedWorld.state.set 6 (1 / 3))
        insulatedWorld.properties (List.replicate 12 0) :=
  ⟨insulatedWorld_kernel, rfl,
    insulator_exclusion heatFlags 1 1 4 (15 / 16) (1 / 4) insulatedWorld.state
      (insulatedWorld.state.set 6 (1 / 3)) insulatedWorld.properties (List.replicate 12 0) 0
      (by decide) (by decide)
      (by
        intro j hj
        by_cases h6 : j = 6
        · subst h6
          exact absurd ⟨by decide, 2, by decide, by decide⟩ hj
        · rw [List.getElem?_set_ne (Ne.symm h6)])⟩

/-! ## In-bounds neighbour access (C9) -/

/-- C9 (amended). In-bounds neighbour access: on a `w × h` grid of at most
`2 ^ 32` cells with state and properties arrays of length `w * h` whose
boundary cells are Fixed or Insulator, for every cell `(x, y)` the 32-bit
index equals `y * w + x` and lies below `w * h`; when the cell is neither Fixed
nor Insulator it is interior and the four 32-bit neighbour indices are the flat
indices of `(x, y-1)`, `(x, y+1)`, `(x-1, y)`, `(x+1, y)`, all below `w * h`;
and so every read of `kernel_xy` and of the PACKING body is in bounds (both
return). -/
theorem in_bounds_neighbour_access {F : Type} [Add F] [Mul F] [Div F] [Zero F] [One F]
    [LT F] [DecidableRel (fun a b : F => a < b)]
    (fl : cell_flags_t) (w h : Nat) (state : List F) (props : List Nat)
    (hs : state.length = w * h) (hp : props.length = w * h)
    (hN : w * h ≤ 4294967296) (hb : boundaryMarked fl w h props)
    (x y : Nat) (hx : x < w) (hy : y < h) :
    cellIndex x y w = y * w + x ∧ y * w + x < w * h ∧
    (∀ p, props[y * w + x]? = some p → ¬ isFixedOrInsulator fl p →
      (0 < y ∧ indexAbove (y * w + x) w = (y - 1) * w + x ∧ (y - 1) * w + x < w * h) ∧
      (y + 1 < h ∧ indexBelow (y * w + x) w = (y + 1) * w + x ∧ (y + 1) * w + x < w * h) ∧
      (0 < x ∧ indexLeft (y * w + x) = y * w + (x - 1) ∧ y * w + (x - 1) < w * h) ∧
      (x + 1 < w ∧ indexRight (y * w + x) = y * w + (x + 1) ∧ y * w + (x + 1) < w * h)) ∧
    (∀ (inner outer : F) (buffer : List F), buffer.length = w * h →
      ∃ out, kernel_xy fl x y w inner outer state props buffer = some out) ∧
    (∀ packed : List Nat, packed.length = w * h →
      ∃ out, packCell fl x y w props packed = some out) := by
  have hidx := cellIndex_eq hN hx hy
  have hlt := flat_lt hx hy
  refine ⟨hidx, hlt, ?_, ?_, ?_⟩
  · intro p hpp hfree
    obtain ⟨hx0, hx1, hy0, hy1⟩ := interior_of_unmarked hb hx hy hpp hfree
    obtain ⟨ea, eb, el, er, hbl⟩ := neighbour_indices hN hx0 hx1 hy0 hy1
    exact ⟨⟨hy0, ea, flat_lt hx (Nat.lt_of_le_of_lt (Nat.sub_le _ _) hy)⟩, ⟨hy1, eb, hbl⟩,
      ⟨hx0, el, flat_lt (Nat.lt_of_le_of_lt (Nat.sub_le _ _) hx) hy⟩,
      ⟨hx1, er, flat_lt hx1 hy⟩⟩
  · intro inner outer buffer hbuf
    rw [kernel_xy_eq, hidx]
    obtain ⟨v, hv⟩ := Option.isSome_iff_exists.mp
      (cellValue_isSome fl w h inner outer state props (y * w + x) hN hb
        (Nat.le_of_eq hs.symm) (Nat.le_of_eq hp.symm) hlt)
    rw [hv, Option.some_bind]
    exact ⟨_, storeAt_eq_some.mpr ⟨by rw [hbuf]; exact hlt, rfl⟩⟩
  · intro packed hpk
    rw [packCell_eq, hidx]
    obtain ⟨v, hv⟩ := Option.isSome_iff_exists.mp
      (packWord_isSome fl w h props (y * w + x) hN hb (Nat.le_of_eq hp.symm) hlt)
    rw [hv, Option.some_bind]
    exact ⟨_, storeAt_eq_some.mpr ⟨by rw [hpk]; exact hlt, rfl⟩⟩

/-- Witness for C9: the cell `(1, 1)` of the 4 × 3 grid. -/
theorem in_bounds_neighbour_access_witness :
    cellIndex 1 1 4 = 1 * 4 + 1 ∧ 1 * 4 + 1 < 4 * 3 ∧
    (∀ p, insulatedWorld.properties[1 * 4 + 1]? = some p → ¬ isFixedOrInsulator heatFlags p →
      (0 < 1 ∧ indexAbove (1 * 4 + 1) 4 = (1 - 1) * 4 + 1 ∧ (1 - 1) * 4 + 1 < 4 * 3) ∧
      (1 + 1 < 3 ∧ indexBelow (1 * 4 + 1) 4 = (1 + 1) * 4 + 1 ∧ (1 + 1) * 4 + 1 < 4 * 3) ∧
      (0 < 1 ∧ indexLeft (1 * 4 + 1) = 1 * 4 + (1 - 1) ∧ 1 * 4 + (1 - 1) < 4 * 3) ∧
      (1 + 1 < 4 ∧ indexRight (1 * 4 + 1) = 1 * 4 + (1 + 1) ∧ 1 * 4 + (1 + 1) < 4 * 3)) ∧
    (∀ (inner outer : ℚ) (buffer : List ℚ), buffer.length = 4 * 3 →
      ∃ out, kernel_xy heatFlags 1 1 4 inner outer insulatedWorld.state
        insulatedWorld.properties buffer = some out) ∧
    (∀ packed : List Nat, packed.length = 4 * 3 →
      ∃ out, packCell heatFlags 1 1 4 insulatedWorld.properties packed = some out) :=
  in_bounds_neighbour_access heatFlags 4 3 insulatedWorld.state insulatedWorld.properties
    (by decide) (by decide) (by decide) (by decide) 1 1 (by decide) (by decide)

theorem giantProperties_get (i : Nat) (hi : i < 65536 * 65537) :
    giantProperties[i]? = some (if i = 4294901761 then 0 else 1) := by
  unfold giantProperties
  rw [List.getElem?_map, List.getElem?_range hi]
  rfl

/-- Counterexample to C9 as stated: a 65536 × 65537 grid (both dimensions fit
in 32 bits) whose boundary cells are all Fixed.  Its cell `(1, 65535)` is
neither Fixed nor Insulator, and the index `index + w` that `kernel_xy` and the
PACKING loop compute for the cell below wraps around to 1, while the flat index
of the cell `(1, 65536)` is 4294967297. -/
theorem in_bounds_neighbour_access_counterexample :
    (65536 < 4294967296 ∧ 65537 < 4294967296) ∧
    giantProperties.length = 65536 * 65537 ∧
    boundaryMarked heatFlags 65536 65537 giantProperties ∧
    (1 < 65536 ∧ 65535 < 65537) ∧
    giantProperties[65535 * 65536 + 1]? = some 0 ∧ ¬ isFixedOrInsulator heatFlags 0 ∧
    indexBelow (cellIndex 1 65535 65536) 65536 = 1 ∧
    (65535 + 1) * 65536 + 1 = 4294967297 ∧
    indexBelow (cellIndex 1 65535 65536) 65536 ≠ (65535 + 1) * 65536 + 1 := by
  refine ⟨by decide, ?_, ?_, by decide, ?_, by decide, by decide, by decide, by decide⟩
  · unfold giantProperties
    rw [List.length_map, List.length_range]
  · intro x hx y hy hbd
    refine ⟨1, ?_, by decide⟩
    rw [giantProperties_get _ (by omega), if_neg (by omega)]
  · rw [giantProperties_get _ (by decide)]
    rfl

/-! ## Weighted-average bound (C10) and the single-step example (C7) -/

/-- C10. Weighted-average bound: for a cell that is neither Fixed nor
Insulator, when `outer ≥ 0` and `inner > 0`, the value `acc / contrib` that
`kernel_xy` computes before clamping lies, in exact arithmetic, between any
lower bound `lo` and upper bound `hi` of the cell's own previous state and the
previous states of its non-insulator neighbours (so between their minimum and
maximum); and when `0 ≤ lo` and `hi ≤ 1` the clamp returns `acc / contrib`
unchanged, which is then the value `kernel_xy` stores. -/
theorem weighted_average_bound {F : Type} [LinearOrderedField F]
    (fl : cell_flags_t) (w : Nat) (inner outer : F) (st : List F) (props : List Nat)
    (index p : Nat) (contrib acc lo hi : F)
    (hp : props[index]? = some p) (hfree : ¬ isFixedOrInsulator fl p)
    (hinner : 0 < inner) (houter : 0 ≤ outer)
    (hacc : accumulate fl w inner outer st props index = some (contrib, acc))
    (hown : ∀ s, st[index]? = some s → lo ≤ s ∧ s ≤ hi)
    (hnb : ∀ j : Nat,
      (j = indexAbove index w ∨ j = indexBelow index w ∨ j = indexLeft index ∨
        j = indexRight index) →
      ∀ pj sj, props[j]? = some pj → lacksInsulator fl pj → st[j]? = some sj →
        lo ≤ sj ∧ sj ≤ hi) :
    0 < contrib ∧ lo ≤ acc / contrib ∧ acc / contrib ≤ hi ∧
      (0 ≤ lo → hi ≤ 1 →
        stdMin 1 (stdMax 0 (acc / contrib)) = acc / contrib ∧
        cellValue fl w inner outer st props index = some (acc / contrib)) := by
  have hacc' := hacc
  unfold accumulate at hacc
  cases hs : st[index]? with
  | none => rw [hs] at hacc; cases hacc
  | some s =>
    rw [hs] at hacc
    dsimp only at hacc
    simp only [Option.bind_eq_some] at hacc
    obtain ⟨r3, ⟨r2, ⟨r1, h1, h2⟩, h3⟩, h4⟩ := hacc
    obtain ⟨hs1, hs2⟩ := hown s hs
    have b0 : 0 < (inner, inner * s).1 ∧ lo * (inner, inner * s).1 ≤ (inner, inner * s).2 ∧
        (inner, inner * s).2 ≤ hi * (inner, inner * s).1 := by
      dsimp only
      refine ⟨hinner, ?_, ?_⟩
      · nlinarith
      · nlinarith
    have b1 := contribute_bounds fl outer st props _ _ r1 lo hi houter
      (hnb _ (Or.inl rfl)) h1 b0
    have b2 := contribute_bounds fl outer st props _ _ r2 lo hi houter
      (hnb _ (Or.inr (Or.inl rfl))) h2 b1
    have b3 := contribute_bounds fl outer st props _ _ r3 lo hi houter
      (hnb _ (Or.inr (Or.inr (Or.inl rfl)))) h3 b2
    obtain ⟨hc, hlo, hhi⟩ := contribute_bounds fl outer st props _ _ (contrib, acc) lo hi houter
      (hnb _ (Or.inr (Or.inr (Or.inr rfl)))) h4 b3
    dsimp only at hc hlo hhi
    have q1 : lo ≤ acc / contrib := by rw [le_div_iff₀ hc]; exact hlo
    have q2 : acc / contrib ≤ hi := by rw [div_le_iff₀ hc]; exact hhi
    refine ⟨hc, q1, q2, ?_⟩
    intro g0 g1
    have hcl := clamp_id (acc / contrib) (le_trans g0 q1) (le_trans q2 g1)
    refine ⟨hcl, ?_⟩
    rw [cellValue_free fl w inner outer st props index p hp hfree, hacc', Option.map_some']
    dsimp only
    rw [hcl]

theorem insulatedWorld_accumulate :
    accumulate heatFlags 4 (15 / 16 : ℚ) (1 / 4) insulatedWorld.state
      insulatedWorld.properties 5 = some (27 / 16, 15 / 32) := by
  simp [accumulate, contribute, insulatedWorld, heatFlags, indexAbove, indexBelow, indexLeft,
    indexRight, lacksInsulator]
  norm_num

/-- Witness for C10: the unmarked cell 5 of the 4 × 3 grid, whose own state is
1/2 and whose three contributing neighbours hold 0, gets
`(15/32) / (27/16)`, a value between 0 and 1/2. -/
theorem weighted_average_bound_witness :
    (0 : ℚ) < 27 / 16 ∧ (0 : ℚ) ≤ (15 / 32) / (27 / 16) ∧
      ((15 / 32) / (27 / 16) : ℚ) ≤ 1 / 2 ∧
      ((0 : ℚ) ≤ 0 → (1 / 2 : ℚ) ≤ 1 →
        stdMin 1 (stdMax 0 ((15 / 32) / (27 / 16) : ℚ)) = (15 / 32) / (27 / 16) ∧
        cellValue heatFlags 4 (15 / 16 : ℚ) (1 / 4) insulatedWorld.state
          insulatedWorld.properties 5 = some ((15 / 32) / (27 / 16))) :=
  weighted_average_bound heatFlags 4 (15 / 16) (1 / 4) insulatedWorld.state
    insulatedWorld.properties 5 0 (27 / 16) (15 / 32) 0 (1 / 2)
    (by decide) (by decide) (by norm_num) (by norm_num) insulatedWorld_accumulate
    (by
      intro s hs
      simp [insulatedWorld] at hs
      subst hs
      norm_num)
    (by
      intro j hj pj sj hpj hl hsj
      have hj' : j = 1 ∨ j = 9 ∨ j = 4 ∨ j = 6 := hj
      rcases hj' with rfl | rfl | rfl | rfl
      · have : sj = 0 := by
          simp [insulatedWorld] at hsj
          exact hsj.symm
        subst this
        norm_num
      · have : sj = 0 := by
          simp [insulatedWorld] at hsj
          exact hsj.symm
        subst this
        norm_num
      · have : sj = 0 := by
          simp [insulatedWorld] at hsj
          exact hsj.symm
        subst this
        norm_num
      · have : pj = 2 := by
          simp [insulatedWorld] at hpj
          exact hpj.symm
        subst this
        exact absurd hl (by decide))

/-- C7. Single-step example: on the 3 × 3 grid whose eight border cells are
Fixed with state 0 and whose centre `(1, 1)` is unmarked with state 1, with
`alpha = 1` and `dt = 1/4 = 0.25`, the weights are `outer = 1/4 = 0.25` and
`inner = 15/16 = 0.9375`, the centre accumulates `acc = 15/16 = 0.9375` and
`contrib = 31/16 = 1.9375`, and one step of `StepWorldV3OpenCL` sets the centre
to `acc / contrib = 15/31`, about 0.4839, while every border cell remains 0. -/
theorem single_step_example (junk : Nat → ℚ) :
    stepOuter exampleWorld.alpha (1 / 4) = 1 / 4 ∧
    stepInner exampleWorld.alpha (1 / 4) = 15 / 16 ∧
    accumulate heatFlags 3 (15 / 16 : ℚ) (1 / 4) exampleWorld.state
      exampleWorld.properties (cellIndex 1 1 3) = some (31 / 16, 15 / 16) ∧
    ((15 / 16 : ℚ) / (31 / 16) = 15 / 31) ∧
    ((4838 / 10000 : ℚ) < 15 / 31 ∧ (15 / 31 : ℚ) < 4840 / 10000) ∧
    StepWorldV3OpenCL heatFlags junk exampleWorld (1 / 4) 1
      = some { exampleWorld with
          state := [0, 0, 0, 0, 15 / 31, 0, 0, 0, 0], t := 1 / 4 } := by
  refine ⟨?_, ?_, ?_, by norm_num, by norm_num, ?_⟩
  · simp [stepOuter, exampleWorld]
  · simp [stepInner, stepOuter, exampleWorld]
    norm_num
  · simp [accumulate, contribute, exampleWorld, heatFlags, cellIndex, indexAbove, indexBelow,
      indexLeft, indexRight, lacksInsulator]
    norm_num
  · simp [StepWorldV3OpenCL, exampleWorld, heatFlags, forRange, stepV3, enqueueWriteBuffer,
      enqueueReadBuffer, cbBuffer, enqueueNDRangeKernel, kernel_xy, cellIndex, storeAt,
      accumulate, contribute, indexAbove, indexBelow, indexLeft, indexRight,
      isFixedOrInsulator, lacksInsulator, stepInner, stepOuter, stdMin, stdMax,
      List.range_succ]
    norm_num

/-! ## The neighbour-mask precomputer (C3) -/

theorem neighbour_indices_flat {fl : cell_flags_t} {w h i p : Nat} {properties : List Nat}
    (hN : w * h ≤ 4294967296) (hb : boundaryMarked fl w h properties) (hi : i < w * h)
    (hp : properties[i]? = some p) (hm : ¬ isFixedOrInsulator fl p) :
    indexAbove i w = i - w ∧ indexBelow i w = i + w ∧
      indexLeft i = i - 1 ∧ indexRight i = i + 1 := by
  obtain ⟨hx, hy, hxy⟩ := flat_decompose hi
  generalize i / w = y at hy hxy
  generalize i % w = x at hx hxy
  subst hxy
  obtain ⟨hx0, hx1, hy0, hy1⟩ := interior_of_unmarked hb hx hy hp hm
  obtain ⟨ea, eb, el, er, hlt⟩ := neighbour_indices hN hx0 hx1 hy0 hy1
  rw [ea, eb, el, er]
  obtain ⟨y', rfl⟩ : ∃ y', y = y' + 1 := ⟨y - 1, by omega⟩
  have e1 : (y' + 1) * w = y' * w + w := Nat.succ_mul y' w
  have e2 : (y' + 1 + 1) * w = y' * w + w + w := by rw [Nat.succ_mul, e1]
  rw [Nat.add_sub_cancel, e2, e1]
  refine ⟨?_, ?_, ?_, ?_⟩ <;> omega

/-- C3 (amended). Neighbour-mask precomputer: for a `w × h` properties array
whose boundary cells are Fixed or Insulator, after the PACKING loop every Fixed
or Insulator cell's packed word equals its original word, and for every cell
that is neither Fixed nor Insulator and whose original word has the bits 4, 8,
16 and 32 clear, the packed word has bit 4 set iff the cell above (`i - w`)
lacks `Cell_Insulator`, bit 8 iff the cell below (`i + w`) lacks it, bit 16 iff
the cell to the left (`i - 1`) lacks it, and bit 32 iff the cell to the right
(`i + 1`) lacks it; and the loop does return when the array has `w * h`
entries, fewer than `2 ^ 32`. -/
theorem neighbour_mask_precomputer (fl : cell_flags_t) (w h : Nat) (properties : List Nat)
    (hb : boundaryMarked fl w h properties) :
    (∀ packed, PACKING fl w h properties = some packed →
      ∀ i p, i < w * h → properties[i]? = some p →
        (isFixedOrInsulator fl p → packed[i]? = some p) ∧
        (¬ isFixedOrInsulator fl p → p &&& 60 = 0 →
          ∃ q pa pb pl pr, packed[i]? = some q ∧
            properties[i - w]? = some pa ∧ properties[i + w]? = some pb ∧
            properties[i - 1]? = some pl ∧ properties[i + 1]? = some pr ∧
            (q &&& 4 ≠ 0 ↔ lacksInsulator fl pa) ∧ (q &&& 8 ≠ 0 ↔ lacksInsulator fl pb) ∧
            (q &&& 16 ≠ 0 ↔ lacksInsulator fl pl) ∧
            (q &&& 32 ≠ 0 ↔ lacksInsulator fl pr))) ∧
    (properties.length = w * h → w * h < 4294967296 →
      ∃ packed, PACKING fl w h properties = some packed) := by
  constructor
  · intro packed hrun i p hi hp
    obtain ⟨hN, _, hval⟩ := PACKING_spec fl w h properties packed hrun
    obtain ⟨hq, hqs⟩ := hval i hi
    constructor
    · intro hm
      rw [hq, packWord_marked fl w properties i p hp hm]
    · intro hfree hclear
      obtain ⟨q, hq2⟩ := Option.isSome_iff_exists.mp hqs
      obtain ⟨pa, pb, pl, pr, hpa, hpb, hpl, hpr, rfl⟩ :=
        packWord_unmarked fl w properties i p _ hp hfree hq2
      obtain ⟨ea, eb, el, er⟩ := neighbour_indices_flat (Nat.le_of_lt hN) hb hi hp hfree
      rw [ea] at hpa
      rw [eb] at hpb
      rw [el] at hpl
      rw [er] at hpr
      obtain ⟨_, m4, m8, m16, m32⟩ := mask_bits (lacksInsulator fl pa) (lacksInsulator fl pb)
        (lacksInsulator fl pl) (lacksInsulator fl pr)
      refine ⟨_, pa, pb, pl, pr, by rw [hq, hq2], hpa, hpb, hpl, hpr, ?_, ?_, ?_, ?_⟩
      · rw [xor_mask_bit p _ 4 hclear (by decide)]; exact m4
      · rw [xor_mask_bit p _ 8 hclear (by decide)]; exact m8
      · rw [xor_mask_bit p _ 16 hclear (by decide)]; exact m16
      · rw [xor_mask_bit p _ 32 hclear (by decide)]; exact m32
  · intro hlen hsz
    exact PACKING_total fl w h properties hsz
      (fun i hi => packWord_isSome fl w h properties i (Nat.le_of_lt hsz) hb
        (Nat.le_of_eq hlen.symm) hi)

/-- Witness for C3: the unmarked cell 5 of the 4 × 3 grid, whose right
neighbour is an Insulator, is packed to `4 + 8 + 16 = 28`. -/
theorem neighbour_mask_precomputer_witness :
    boundaryMarked heatFlags 4 3 insulatedWorld.properties ∧
    PACKING heatFlags 4 3 insulatedWorld.properties
        = some [1, 1, 1, 1, 1, 28, 2, 1, 1, 1, 1, 1] ∧
    ((isFixedOrInsulator heatFlags 0 → [1, 1, 1, 1, 1, 28, 2, 1, 1, 1, 1, 1][5]? = some 0) ∧
    (¬ isFixedOrInsulator heatFlags 0 → 0 &&& 60 = 0 →
      ∃ q pa pb pl pr, [1, 1, 1, 1, 1, 28, 2, 1, 1, 1, 1, 1][5]? = some q ∧
        insulatedWorld.properties[5 - 4]? = some pa ∧
        insulatedWorld.properties[5 + 4]? = some pb ∧
        insulatedWorld.properties[5 - 1]? = some pl ∧
        insulatedWorld.properties[5 + 1]? = some pr ∧
        (q &&& 4 ≠ 0 ↔ lacksInsulator heatFlags pa) ∧
        (q &&& 8 ≠ 0 ↔ lacksInsulator heatFlags pb) ∧
        (q &&& 16 ≠ 0 ↔ lacksInsulator heatFlags pl) ∧
        (q &&& 32 ≠ 0 ↔ lacksInsulator heatFlags pr))) :=
  ⟨by decide, by decide,
    (neighbour_mask_precomputer heatFlags 4 3 insulatedWorld.properties (by decide)).1
      [1, 1, 1, 1, 1, 28, 2, 1, 1, 1, 1, 1] (by decide) 5 0 (by decide) (by decide)⟩

/-- Counterexample to C3 as stated: in the 3 × 3 grid with a Fixed border
whose centre word is 4, the centre is neither Fixed nor Insulator and the cell
above it (word 1) lacks `Cell_Insulator`, yet the packed centre word 56 has
bit 4 clear, because the loop toggles the bit with `^`. -/
theorem neighbour_mask_precomputer_counterexample :
    boundaryMarked heatFlags 3 3 [1, 1, 1, 1, 4, 1, 1, 1, 1] ∧
    PACKING heatFlags 3 3 [1, 1, 1, 1, 4, 1, 1, 1, 1]
      = some [1, 1, 1, 1, 56, 1, 1, 1, 1] ∧
    ¬ isFixedOrInsulator heatFlags 4 ∧
    ([1, 1, 1, 1, 4, 1, 1, 1, 1] : List Nat)[4 - 3]? = some 1 ∧
    lacksInsulator heatFlags 1 ∧
    ¬ (56 &&& 4 ≠ 0) := by
  decide

/-! ## Equivalence of the two variants (C2) -/

section Equivalence

variable {F : Type} [Add F] [Mul F] [Div F] [Zero F] [One F]
  [LT F] [DecidableRel (fun a b : F => a < b)]

omit [Div F] [Zero F] [One F] [LT F] [DecidableRel (fun a b : F => a < b)] in
theorem contributePacked_eq (fl : cell_flags_t) (outer : F) (d : List F) (props : List Nat)
    (q bit j pj : Nat) (ca : F × F) (hpj : props[j]? = some pj)
    (hbit : q &&& bit ≠ 0 ↔ lacksInsulator fl pj) :
    contributePacked outer d q bit j ca = contribute fl outer d props j ca := by
  unfold contributePacked contribute
  rw [hpj]
  dsimp only
  by_cases hl : lacksInsulator fl pj
  · rw [if_pos (hbit.mpr hl), if_pos hl]
  · rw [if_neg (fun h => hl (hbit.mp h)), if_neg hl]

theorem unmarked_word_zero (fl : cell_flags_t) (p : Nat)
    (hbits : p &&& (fl.Cell_Fixed ||| fl.Cell_Insulator) = p)
    (hfree : ¬ isFixedOrInsulator fl p) : p = 0 := by
  unfold isFixedOrInsulator at hfree
  have h1 : p &&& fl.Cell_Fixed = 0 := by
    by_contra h
    exact hfree (Or.inl h)
  have h2 : p &&& fl.Cell_Insulator = 0 := by
    by_contra h
    exact hfree (Or.inr h)
  rw [Nat.and_or_distrib_left, h1, h2] at hbits
  exact hbits.symm

/-- On property words that carry only the Fixed and Insulator bits, the packed
kernel stores the same value as `kernel_xy`. -/
theorem cellValuePacked_eq_cellValue (fl : cell_flags_t) (w h : Nat) (inner outer : F)
    (d : List F) (props packed : List Nat) (i : Nat)
    (hfF : 60 &&& fl.Cell_Fixed = 0) (hfI : 60 &&& fl.Cell_Insulator = 0)
    (hbits : ∀ p ∈ props, p &&& (fl.Cell_Fixed ||| fl.Cell_Insulator) = p)
    (hpk : PACKING fl w h props = some packed) (hi : i < w * h) :
    cellValuePacked fl w inner outer d packed i = cellValue fl w inner outer d props i := by
  obtain ⟨_, _, hval⟩ := PACKING_spec fl w h props packed hpk
  obtain ⟨hq, hqs⟩ := hval i hi
  obtain ⟨q, hq2⟩ := Option.isSome_iff_exists.mp hqs
  cases hp : props[i]? with
  | none =>
    unfold packWord at hq2
    rw [hp] at hq2
    cases hq2
  | some p =>
    by_cases hm : isFixedOrInsulator fl p
    · unfold cellValuePacked
      rw [hq, packWord_marked fl w props i p hp hm]
      dsimp only
      rw [if_pos hm, cellValue_fixed fl w inner outer d props i p hp hm]
    · obtain ⟨pa, pb, pl, pr, hpa, hpb, hpl, hpr, hqe⟩ :=
        packWord_unmarked fl w props i p q hp hm hq2
      have hp0 : p = 0 := unmarked_word_zero fl p (hbits p (List.getElem?_mem hp)) hm
      obtain ⟨msub, m4, m8, m16, m32⟩ := mask_bits (lacksInsulator fl pa)
        (lacksInsulator fl pb) (lacksInsulator fl pl) (lacksInsulator fl pr)
      have hclear : p &&& 60 = 0 := by rw [hp0]; rfl
      have hqm : ¬ isFixedOrInsulator fl q := by
        unfold isFixedOrInsulator at hm ⊢
        rw [hqe, xor_mask_and p _ _ msub hfF, xor_mask_and p _ _ msub hfI]
        exact hm
      have b4 : q &&& 4 ≠ 0 ↔ lacksInsulator fl pa := by
        rw [hqe, xor_mask_bit p _ 4 hclear (by decide)]; exact m4
      have b8 : q &&& 8 ≠ 0 ↔ lacksInsulator fl pb := by
        rw [hqe, xor_mask_bit p _ 8 hclear (by decide)]; exact m8
      have b16 : q &&& 16 ≠ 0 ↔ lacksInsulator fl pl := by
        rw [hqe, xor_mask_bit p _ 16 hclear (by decide)]; exact m16
      have b32 : q &&& 32 ≠ 0 ↔ lacksInsulator fl pr := by
        rw [hqe, xor_mask_bit p _ 32 hclear (by decide)]; exact m32
      unfold cellValuePacked
      rw [hq, hq2]
      dsimp only
      rw [if_neg hqm, cellValue_free fl w inner outer d props i p hp hm]
      congr 1
      unfold accumulatePacked accumulate
      cases d[i]? with
      | none => rfl
      | some s =>
        dsimp only
        have e1 : ∀ ca, contributePacked outer d q 4 (indexAbove i w) ca
            = contribute fl outer d props (indexAbove i w) ca :=
          fun ca => contributePacked_eq fl outer d props q 4 _ pa ca hpa b4
        have e2 : contributePacked outer d q 8 (indexBelow i w)
            = contribute fl outer d props (indexBelow i w) :=
          funext fun ca => contributePacked_eq fl outer d props q 8 _ pb ca hpb b8
        have e3 : contributePacked outer d q 16 (indexLeft i)
            = contribute fl outer d props (indexLeft i) :=
          funext fun ca => contributePacked_eq fl outer d props q 16 _ pl ca hpl b16
        have e4 : contributePacked outer d q 32 (indexRight i)
            = contribute fl outer d props (indexRight i) :=
          funext fun ca => contributePacked_eq fl outer d props q 32 _ pr ca hpr b32
        rw [e1, e2, e3, e4]

theorem kernelImage_of_values (fl : cell_flags_t) (w h : Nat) (inner outer : F)
    (dprops : List Nat) (d e : List F) (hlen : e.length = w * h)
    (hval : ∀ i, i < w * h → e[i]? = cellValue fl w inner outer d dprops i ∧
      (cellValue fl w inner outer d dprops i).isSome = true) :
    e = kernelImage fl w h inner outer dprops d := by
  apply List.ext_getElem?
  intro i
  unfold kernelImage
  by_cases hi : i < w * h
  · obtain ⟨hv, hs⟩ := hval i hi
    obtain ⟨v, hv2⟩ := Option.isSome_iff_exists.mp hs
    rw [List.getElem?_map, List.getElem?_range hi, hv]
    simp only [Option.map_some', hv2, Option.getD_some]
  · rw [List.getElem?_eq_none (by omega), List.getElem?_eq_none (by simp; omega)]

end Equivalence

/-- C2. Equivalence of variants: on a valid input grid (arrays of `w * h`
entries, boundary cells Fixed or Insulator, property words carrying only the
Fixed and Insulator bits, these two bits distinct from the neighbour bits 4, 8,
16, 32), for every `dt` and `n`: whenever the read-back-every-step run of
`kernel_xy` and the resident ping-pong run of the packed kernel both return,
they return the same world, in particular identical state arrays; and on a grid
of fewer than `2 ^ 30` cells both do return. -/
theorem variants_equivalent {F : Type} [Add F] [Sub F] [Mul F] [Div F] [Zero F] [One F]
    [OfNat F 4] [LT F] [DecidableRel (fun a b : F => a < b)]
    (fl : cell_flags_t) (junk3 junk5 : Nat → F) (world : world_t F) (dt : F) (n : Nat)
    (hfF : 60 &&& fl.Cell_Fixed = 0) (hfI : 60 &&& fl.Cell_Insulator = 0)
    (hwf : wellFormed fl world)
    (hbits : ∀ p ∈ world.properties, p &&& (fl.Cell_Fixed ||| fl.Cell_Insulator) = p) :
    (∀ w3 w5, StepWorldV3OpenCL fl junk3 world dt n = some w3 →
      StepWorldV5PackedProperties fl junk5 world dt n = some w5 →
      w3 = w5 ∧ w3.state = w5.state) ∧
    (4 * (world.w * world.h) < 4294967296 →
      ∃ out, StepWorldV3OpenCL fl junk3 world dt n = some out ∧
        StepWorldV5PackedProperties fl junk5 world dt n = some out) := by
  have main : ∀ w3 w5, StepWorldV3OpenCL fl junk3 world dt n = some w3 →
      StepWorldV5PackedProperties fl junk5 world dt n = some w5 → w3 = w5 := by
    intro w3 w5 h3 h5
    obtain ⟨hsl, hpl, hb⟩ := hwf
    obtain ⟨hf3, hn3, hpos3, hP3⟩ := StepWorldV3OpenCL_run fl junk3 world w3 dt n h3
    obtain ⟨packed, hpk, hf5, hlen5, hn5, hpos5, _, hP5⟩ :=
      StepWorldV5PackedProperties_run fl junk5 world w5 dt n h5
    rcases Nat.eq_zero_or_pos n with hn | hn
    · rw [hn3 hn, hn5 hn]
    · obtain ⟨hsz, _, _, _, hlen3⟩ := hpos3 hn
      obtain ⟨_, hplen, _⟩ := PACKING_spec fl world.w world.h world.properties packed hpk
      have htp : world.properties.take (world.w * world.h) = world.properties :=
        List.take_of_length_le (by omega)
      have htk : packed.take (world.w * world.h) = packed :=
        List.take_of_length_le (by omega)
      rw [htp] at hP3
      rw [htk] at hP5
      have k3 := hP3
        (fun k d t => d = (kernelImage fl world.w world.h (stepInner world.alpha dt)
            (stepOuter world.alpha dt) world.properties)^[k]
              (world.state.take (world.w * world.h)) ∧
          t = (fun t => t + dt)^[k] world.t)
        ⟨rfl, rfl⟩
        (by
          intro k d t e _ ⟨hd, ht⟩ ⟨_, _, hel, hval⟩
          rw [Function.iterate_succ_apply', Function.iterate_succ_apply', ← hd, ← ht]
          exact ⟨kernelImage_of_values fl _ _ _ _ _ d e hel hval, rfl⟩)
      have k5 := hP5
        (fun k d t => d = (kernelImage fl world.w world.h (stepInner world.alpha dt)
            (stepOuter world.alpha dt) world.properties)^[k]
              (world.state.take (world.w * world.h)) ∧
          t = (fun t => t + dt)^[k] world.t)
        ⟨rfl, rfl⟩
        (by
          intro k d t e _ ⟨hd, ht⟩ ⟨_, _, hel, hval⟩
          rw [Function.iterate_succ_apply', Function.iterate_succ_apply', ← hd, ← ht]
          refine ⟨kernelImage_of_values fl _ _ _ _ _ d e hel ?_, rfl⟩
          intro i hi
          rw [← cellValuePacked_eq_cellValue fl world.w world.h _ _ d world.properties
            packed i hfF hfI hbits hpk hi]
          exact hval i hi)
      dsimp only at k3 k5
      have hl3 : w3.state.length = world.w * world.h := by
        rcases hlen3 with h | h
        · rw [h, hsl]
        · exact h
      have hl5 : w5.state.length = world.w * world.h := by rw [hlen5, hsl]
      have hst : w3.state = w5.state := by
        rw [← List.take_of_length_le (Nat.le_of_eq hl3),
          ← List.take_of_length_le (Nat.le_of_eq hl5), k3.1, k5.1]
      have ht : w3.t = w5.t := by rw [k3.2, k5.2]
      obtain ⟨a1, a2, a3, a4⟩ := hf3
      obtain ⟨b1, b2, b3, b4⟩ := hf5
      cases w3
      cases w5
      simp only at a1 a2 a3 a4 b1 b2 b3 b4 hst ht
      subst a1 a2 a3 a4 hst ht
      simp only [world_t.mk.injEq, b1, b2, b3, b4, and_self]
  refine ⟨fun w3 w5 h3 h5 => ⟨main w3 w5 h3 h5, by rw [main w3 w5 h3 h5]⟩, ?_⟩
  intro hsz
  obtain ⟨w3, h3⟩ := StepWorldV3OpenCL_total fl junk3 world dt n hwf hsz
  obtain ⟨w5, h5⟩ := StepWorldV5PackedProperties_total fl junk5 world dt n hwf hsz
  exact ⟨w3, h3, by rw [main w3 w5 h3 h5]; exact h5⟩

/-- Witness for C2: on the 4 × 3 grid the packed variant, started from device
garbage 7, returns the state with 125/1458 in cell 5 after three steps, and so
does the read-back-every-step variant started from device garbage 0. -/
theorem variants_equivalent_witness :
    (60 &&& heatFlags.Cell_Fixed = 0 ∧ 60 &&& heatFlags.Cell_Insulator = 0 ∧
      wellFormed heatFlags insulatedWorld ∧
      ∀ p ∈ insulatedWorld.properties,
        p &&& (heatFlags.Cell_Fixed ||| heatFlags.Cell_Insulator) = p) ∧
    StepWorldV5PackedProperties heatFlags (fun _ => 7) insulatedWorld (1 / 4) 3
      = some { insulatedWorld with
          state := [0, 0, 0, 0, 0, 125 / 1458, 3 / 4, 0, 0, 0, 0, 0], t := 3 / 4 } ∧
    StepWorldV3OpenCL heatFlags (fun _ => 0) insulatedWorld (1 / 4) 3
      = some { insulatedWorld with
          state := [0, 0, 0, 0, 0, 125 / 1458, 3 / 4, 0, 0, 0, 0, 0], t := 3 / 4 } :=
  ⟨⟨by decide, by decide, by decide, by decide⟩, insulatedWorld_packed_three_steps _, by
    obtain ⟨out, h3, h5⟩ :=
      (variants_equivalent heatFlags (fun _ => 0) (fun _ => 7) insulatedWorld (1 / 4) 3
        (by decide) (by decide) (by decide) (by decide)).2 (by decide)
    rw [insulatedWorld_packed_three_steps] at h5
    cases h5
    exact h3⟩


end fs1910
end hpce
